import Mathlib

/-!
Ascent `MemoryInterface` / `MemoryAccessor`

A shallow embedding of `src/ascent/runtimes/expressions/ascent_memory_interface.hpp`.

* The conduit node store is an external library.  It is embedded as a tree
  (`Node`) whose object nodes hold an ordered list of named children and whose
  leaves hold a `DataType` descriptor, the typed pointer that conduit hands out
  for the leaf, and the allocator the leaf was filled with.
* Raw memory is a list of buffers (`State.heap`); a pointer names a buffer and
  an element position inside it.  Reading outside a buffer is a fault.
* C++ exceptions do not roll back the node tree, so every operation returns its
  outcome together with the state it leaves behind.
* The preprocessor switch `ASCENT_USE_CUDA` is the Boolean argument `cuda`.
* Element values are integers standing for the stored bit patterns: the code only
  copies and returns them.  Counts and indices are unbounded: no operation of
  the file comes near the range of `int` or `index_t`.
-/

namespace Ascent

/-! ## conduit data types -/

/-- Element-type tags of conduit's `DataType`. -/
inductive TypeId where
  | empty | object | float64 | float32 | int32 | int64 | other
  deriving DecidableEq, Repr

/-- The template argument `T` of `MemoryInterface<T>` and `MemoryAccessor<T>`. -/
inductive ElemType where
  | float64 | float32 | int32 | int64
  deriving DecidableEq, Repr

/-- The C++ `sizeof(T)`. -/
def ElemType.sizeof : ElemType → Nat
  | .float64 => 8
  | .float32 => 4
  | .int32 => 4
  | .int64 => 8

/-- The conduit type tag that `is_conduit_type<T>` tests for. -/
def ElemType.id : ElemType → TypeId
  | .float64 => .float64
  | .float32 => .float32
  | .int32 => .int32
  | .int64 => .int64

/-- The descriptor `conduit::DataType`; offset and stride are in bytes
("conduit strides and offsets are in terms of bytes"). -/
structure DataType where
  id : TypeId
  number_of_elements : Nat
  offset : Nat
  stride : Nat
  deriving DecidableEq, Repr

/-- The rule `DataType::element_index` of conduit: `m_offset + m_stride * idx`,
computed on the descriptor's own (byte) offset and stride. -/
def DataType.element_index (d : DataType) (idx : Nat) : Nat :=
  d.offset + d.stride * idx

/-! ## memory -/

/-- A typed pointer `const T *`: a buffer and an element position in it. -/
structure Ptr where
  buf : Nat
  off : Nat
  deriving DecidableEq, Repr

/-- Where a buffer lives. -/
inductive Space where
  | host | device | unified
  deriving DecidableEq, Repr

/-- One allocation: its memory space and its elements. -/
structure Buffer where
  space : Space
  data : List Int
  deriving DecidableEq, Repr

/-- Allocator identities which a conduit node can be tagged with. -/
inductive AllocatorId where
  | standard | host | device
  deriving DecidableEq, Repr

/-- Modelled from the spec: `AllocationManager::conduit_host_allocator_id()` of
`ascent_memory_manager.hpp`, the allocator identity for host memory. -/
def conduit_host_allocator_id : AllocatorId := .host

/-- Modelled from the spec: `AllocationManager::conduit_device_allocator_id()` of
`ascent_memory_manager.hpp`, the allocator identity for device memory. -/
def conduit_device_allocator_id : AllocatorId := .device

/-- The memory space an allocator hands out. -/
def AllocatorId.space : AllocatorId → Space
  | .standard => .host
  | .host => .host
  | .device => .device

/-- The element `ptr[k]`; `none` when the pointer or the position is outside
every allocation. -/
def read (heap : List Buffer) (ptr : Ptr) (k : Nat) : Option Int :=
  match heap.get? ptr.buf with
  | some b => b.data.get? (ptr.off + k)
  | none => none

/-- The `n` consecutive elements of `data` from position `start` on; `none` when
they are not all there. -/
def copy_from (data : List Int) : Nat → Nat → Option (List Int)
  | _, 0 => some []
  | start, n + 1 =>
    match data.get? start, copy_from data (start + 1) n with
    | some v, some vs => some (v :: vs)
    | _, _ => none

/-- The `n` consecutive elements `ptr[0], ..., ptr[n-1]`, as conduit copies them
in `Node::set(const T *data, index_t num_elements)`. -/
def copy_elements (heap : List Buffer) (ptr : Ptr) (n : Nat) : Option (List Int) :=
  match heap.get? ptr.buf with
  | some b => copy_from b.data ptr.off n
  | none => none

/-- Modelled from the spec: the provenance query `is_gpu_ptr(ptr, is_gpu, is_unified)`
of `ascent_memory_manager.hpp`: is the pointer in accelerator memory, and if so
is it additionally host-accessible (unified memory). -/
def gpu_ptr_attributes (heap : List Buffer) (ptr : Ptr) : Bool × Bool :=
  match heap.get? ptr.buf with
  | some b =>
    match b.space with
    | .host => (false, false)
    | .device => (true, false)
    | .unified => (true, true)
  | none => (false, false)

/-- Modelled from the spec: the one-argument `is_gpu_ptr(ptr)` of
`ascent_memory_manager.hpp`. -/
def is_gpu_ptr (heap : List Buffer) (ptr : Ptr) : Bool :=
  (gpu_ptr_attributes heap ptr).1

/-! ## the conduit node tree -/

/-- The node `conduit::Node`: empty, a leaf array, or an object with named children
in declaration order. -/
inductive Node where
  | empty : Node
  | leaf (dtype : DataType) (ptr : Ptr) (allocator : AllocatorId) : Node
  | object (children : List (String × Node)) : Node

/-- Children of an object node; a node of another kind has none. -/
def Node.children : Node → List (String × Node)
  | .object cs => cs
  | _ => []

/-- The conduit call `Node::number_of_children()`. -/
def Node.number_of_children (n : Node) : Nat := n.children.length

/-- The conduit call `Node::child(idx)`; `none` is conduit's error for a bad index. -/
def Node.child (n : Node) (idx : Int) : Option (String × Node) :=
  if idx < 0 then none else n.children.get? idx.toNat

/-- The conduit call `Node::dtype()`. -/
def Node.dtype : Node → DataType
  | .empty => ⟨.empty, 0, 0, 0⟩
  | .leaf d _ _ => d
  | .object _ => ⟨.object, 0, 0, 0⟩

/-- Splitting of a path at its separators as conduit's `fetch` and `has_path` do it:
the text before the first '/' is looked up as a child name, and the walk goes
on with the text after it as long as that text is not empty.  So "a/b" walks
"a" then "b", "a/" walks "a" only, and the text between two separators is a
name like any other, also when it is empty.  The parent step ".." of conduit
is not part of the embedding. -/
def split_segments : List Char → List (List Char)
  | [] => [[]]
  | c :: rest =>
    if c = '/' then
      match rest with
      | [] => [[]]
      | _ :: _ => [] :: split_segments rest
    else
      match split_segments rest with
      | [] => [[c]]
      | s :: ss => (c :: s) :: ss

/-- The child names a path walks through. -/
def path_segments (path : String) : List String :=
  (split_segments path.data).map String.mk

/-- First child with the given name. -/
def find_child (name : String) : List (String × Node) → Option Node
  | [] => none
  | (k, c) :: cs => if k = name then some c else find_child name cs

/-- Read-only walk along child names. -/
def Node.get? : Node → List String → Option Node
  | n, [] => some n
  | n, s :: rest =>
    match find_child s n.children with
    | some c => Node.get? c rest
    | none => none

/-- The conduit call `Node::has_path(path)`. -/
def Node.has_path (n : Node) (path : String) : Bool :=
  (n.get? (path_segments path)).isSome

/-- Rewrite the first child named `name` with `g`, or append a new child made by
`g none` when there is none. -/
def update_child (g : Option Node → Node) (name : String) :
    List (String × Node) → List (String × Node)
  | [] => [(name, g none)]
  | (k, c) :: cs =>
    if k = name then (k, g (some c)) :: cs else (k, c) :: update_child g name cs

/-- Walk along child names as the non-const `Node::fetch` does, turning every
non-object node on the way into an object and creating missing children as
empty nodes, and apply `f` to the node reached. -/
def Node.modify (f : Node → Node) : Node → List String → Node
  | n, [] => f n
  | n, s :: rest =>
    .object (update_child (fun o => Node.modify f (o.getD .empty) rest) s n.children)

/-- The tree after `node[path]` (non-const `operator[]`, which creates the path). -/
def Node.fetch (n : Node) (path : String) : Node :=
  n.modify id (path_segments path)

/-- The node that `node[path]` refers to once the path exists. -/
def Node.at_path (n : Node) (path : String) : Node :=
  (n.get? (path_segments path)).getD .empty

/-- The template `is_conduit_type<T>`. -/
def is_conduit_type (T : ElemType) (values : Node) : Bool :=
  values.dtype.id = T.id

/-- The template `conduit_ptr<T>`, conduit's `as_<T>_ptr()`; `none` is conduit's
error for a node that does not hold elements of type `T`. -/
def conduit_ptr (T : ElemType) (values : Node) : Option Ptr :=
  match values with
  | .leaf d p _ => if d.id = T.id then some p else none
  | _ => none

mutual
/-- The number of nodes of a tree, the root included. -/
def Node.count : Node → Nat
  | .empty => 1
  | .leaf _ _ _ => 1
  | .object cs => 1 + count_children cs
/-- The number of nodes below a list of children. -/
def count_children : List (String × Node) → Nat
  | [] => 0
  | (_, c) :: cs => c.count + count_children cs
end

/-! ## state and errors -/

/-- The node `m_field` refers to and the memory its pointers point into. -/
structure State where
  field : Node
  heap : List Buffer

/-- The failures: the `ASCENT_ERROR` sites of the file, an error raised inside
conduit, and a read outside allocated memory. -/
inductive Error where
  | missing_path
  | type_mismatch
  | invalid_component
  | no_component_named
  | ambiguous_component
  | invalid_location
  | conduit
  | fault
  deriving DecidableEq, Repr

/-! ## MemoryAccessor -/

/-- The struct `MemoryAccessor<T>`. -/
structure MemoryAccessor (T : ElemType) where
  m_values : Ptr
  m_size : Nat
  m_offset : Nat
  m_stride : Nat
  deriving DecidableEq, Repr

/-- The constructor `MemoryAccessor(const T *values, const conduit::DataType &dtype)`. -/
def MemoryAccessor.new (T : ElemType) (values : Ptr) (dtype : DataType) : MemoryAccessor T :=
  { m_values := values
    m_size := dtype.number_of_elements
    m_offset := dtype.offset / T.sizeof
    m_stride := dtype.stride / T.sizeof }

/-- The read `operator[]`: `m_values[m_offset + m_stride * index]`. -/
def MemoryAccessor.get {T : ElemType} (a : MemoryAccessor T) (heap : List Buffer)
    (index : Nat) : Option Int :=
  read heap a.m_values (a.m_offset + a.m_stride * index)

/-! ## MemoryInterface -/

/-- The members of `MemoryInterface<T>` other than the reference `m_field`, whose
target lives in the `State`. -/
structure MemoryInterface (T : ElemType) where
  m_components : Int
  m_path : String
  m_sizes : List Nat
  deriving DecidableEq, Repr

/-- The loop of the constructor over the children: `types_match &= ...` and
`m_sizes[i] = ...` for each child in order. -/
def constructor_loop (T : ElemType) : List (String × Node) → Bool × List Nat
  | [] => (true, [])
  | (_, c) :: cs =>
    (is_conduit_type T c && (constructor_loop T cs).1,
      c.dtype.number_of_elements :: (constructor_loop T cs).2)

/-- The constructor `MemoryInterface(const conduit::Node &field, const std::string path)`.
The path exists when `m_field[m_path]` is evaluated, so the node is left as it is. -/
def MemoryInterface.new (T : ElemType) (field : Node) (path : String) :
    Except Error (MemoryInterface T) :=
  if !field.has_path path then .error .missing_path
  else
    let values := field.at_path path
    let children := values.number_of_children
    let m_components : Int := if children = 0 ∨ children = 1 then 1 else children
    let r : Bool × List Nat :=
      if children = 0 then (is_conduit_type T values, [values.dtype.number_of_elements])
      else constructor_loop T values.children
    if !r.1 then .error .type_mismatch
    else .ok { m_components := m_components, m_path := path, m_sizes := r.2 }

namespace MemoryInterface

variable {T : ElemType}

/-- The lookup `size(component)`: `m_sizes[component]`; `none` outside the vector. -/
def size (mi : MemoryInterface T) (component : Int) : Option Nat :=
  if component < 0 then none else mi.m_sizes.get? component.toNat

/-- The member `components()`. -/
def components (mi : MemoryInterface T) : Int := mi.m_components

/-- The member `component_path(component)`. -/
def component_path (mi : MemoryInterface T) (component : Int) (s : State) :
    Except Error String × State :=
  if component < 0 ∨ component ≥ mi.m_components then (.error .invalid_component, s)
  else
    let s1 : State := { s with field := s.field.fetch mi.m_path }
    let values := s1.field.at_path mi.m_path
    if values.number_of_children > 0 then
      match values.child component with
      | some (name, _) => (.ok (mi.m_path ++ "/" ++ name), s1)
      | none => (.error .conduit, s1)
    else (.ok mi.m_path, s1)

/-- The member `raw_ptr(component, leaf_path)`: the pointer conduit stores for the
component and the component's path. -/
def raw_ptr (mi : MemoryInterface T) (component : Int) (s : State) :
    Except Error (Ptr × String) × State :=
  match mi.component_path component s with
  | (.error e, s1) => (.error e, s1)
  | (.ok leaf_path, s1) =>
    let s2 : State := { s1 with field := s1.field.fetch leaf_path }
    match conduit_ptr T (s2.field.at_path leaf_path) with
    | some ptr => (.ok (ptr, leaf_path), s2)
    | none => (.error .conduit, s2)

/-- The scan of `resolve_component` over the children, from index `i` on: the
index of the first child whose name is `component`. -/
def resolve_loop (component : String) : List (String × Node) → Nat → Option Nat
  | [], _ => none
  | (name, _) :: cs, i => if component = name then some i else resolve_loop component cs (i + 1)

/-- The member `resolve_component(component)`. -/
def resolve_component (mi : MemoryInterface T) (component : String) (s : State) :
    Except Error Int × State :=
  if mi.m_components = 1 ∧ component = "" then (.ok 0, s)
  else
    let s1 : State := { s with field := s.field.fetch mi.m_path }
    match resolve_loop component (s1.field.at_path mi.m_path).children 0 with
    | some i => (.ok (i : Int), s1)
    | none => (.error .no_component_named, s1)

/-- The steps `n = m_field[path]; n.set_allocator(id); n.set(ptr, size)` that fill
a mirror node: a fresh buffer from the allocator receives `size` consecutive
elements read from `ptr`, and the node at `path` becomes a compact leaf over it. -/
def create_mirror (T : ElemType) (id : AllocatorId) (path : String) (ptr : Ptr)
    (size : Option Nat) (s : State) : Option State :=
  match size with
  | none => none
  | some n =>
    match copy_elements s.heap ptr n with
    | none => none
    | some elems =>
      some
        { field := s.field.modify
            (fun _ => .leaf ⟨T.id, n, 0, T.sizeof⟩ ⟨s.heap.length, 0⟩ id) (path_segments path)
          heap := s.heap ++ [⟨id.space, elems⟩] }

/-- The tail `return conduit_ptr<T>(m_field[path])` of both mirror branches. -/
def mirror_ptr (T : ElemType) (path : String) (s : State) : Except Error Ptr × State :=
  let s1 : State := { s with field := s.field.fetch path }
  match conduit_ptr T (s1.field.at_path path) with
  | some p => (.ok p, s1)
  | none => (.error .conduit, s1)

/-- The cache branch that both mirroring members run on the mirror path:
`if(!m_field.has_path(path)) { ... create ... }` and then
`return conduit_ptr<T>(m_field[path])`. -/
def mirror_at (T : ElemType) (id : AllocatorId) (path : String) (ptr : Ptr)
    (size : Option Nat) (s : State) : Except Error Ptr × State :=
  if !s.field.has_path path then
    match create_mirror T id path ptr size s with
    | some s2 => mirror_ptr T path s2
    | none => (.error .fault, s)
  else mirror_ptr T path s

/-- The member `device_ptr_const(component)`. -/
def device_ptr_const (cuda : Bool) (mi : MemoryInterface T) (component : Int) (s : State) :
    Except Error Ptr × State :=
  match mi.raw_ptr component s with
  | (.error e, s1) => (.error e, s1)
  | (.ok (ptr, leaf_path), s1) =>
    if cuda then
      if is_gpu_ptr s1.heap ptr then (.ok ptr, s1)
      else
        let d_path := "device_" ++ leaf_path
        mirror_at T conduit_device_allocator_id d_path ptr (mi.size component) s1
    else (.ok ptr, s1)

/-- The member `host_ptr_const(component)`. -/
def host_ptr_const (cuda : Bool) (mi : MemoryInterface T) (component : Int) (s : State) :
    Except Error Ptr × State :=
  match mi.raw_ptr component s with
  | (.error e, s1) => (.error e, s1)
  | (.ok (ptr, leaf_path), s1) =>
    if cuda then
      let is_gpu := (gpu_ptr_attributes s1.heap ptr).1
      let is_unified := (gpu_ptr_attributes s1.heap ptr).2
      let is_host_accessible := !is_gpu || (is_gpu && is_unified)
      if is_host_accessible then (.ok ptr, s1)
      else
        let h_path := "host_" ++ leaf_path
        mirror_at T conduit_host_allocator_id h_path ptr (mi.size component) s1
    else (.ok ptr, s1)

/-- The member `ptr_const(location)`. -/
def ptr_const (cuda : Bool) (mi : MemoryInterface T) (location : String) (s : State) :
    Except Error Ptr × State :=
  if location ≠ "host" ∧ location ≠ "device" then (.error .invalid_location, s)
  else if location = "device" then mi.device_ptr_const cuda 0 s
  else mi.host_ptr_const cuda 0 s

/-- The member `accessor(location, comp)`.  The `int comp_idx` declared in the
`else` block is a new variable of that block: the outer `comp_idx`, which the
rest of the function uses, keeps its value 0. -/
def accessor (cuda : Bool) (mi : MemoryInterface T) (location : String) (comp : String)
    (s : State) : Except Error (MemoryAccessor T) × State :=
  if location ≠ "device" ∧ location ≠ "host" then (.error .invalid_location, s)
  else
    let s0 : State := { s with field := s.field.fetch mi.m_path }
    let comp_idx : Int := 0
    let resolved : Except Error Unit × State :=
      if comp = "" then
        if mi.m_components ≠ 1 then (.error .ambiguous_component, s0) else (.ok (), s0)
      else
        match mi.resolve_component comp s0 with
        | (.ok _, s1) => (.ok (), s1)
        | (.error e, s1) => (.error e, s1)
    match resolved with
    | (.error e, s1) => (.error e, s1)
    | (.ok _, s1) =>
      match mi.component_path comp_idx s1 with
      | (.error e, s2) => (.error e, s2)
      | (.ok leaf_path, s2) =>
        match (if location = "device" then mi.device_ptr_const cuda comp_idx s2
               else mi.host_ptr_const cuda comp_idx s2) with
        | (.error e, s3) => (.error e, s3)
        | (.ok ptr, s3) =>
          let s4 : State := { s3 with field := s3.field.fetch leaf_path }
          (.ok (MemoryAccessor.new T ptr (s4.field.at_path leaf_path).dtype), s4)

/-- The member `value(idx, int component)`.  In both builds the element read is
`ptr[el_idx]`; the accelerator build fetches it with a one-element copy when
the pointer is a device pointer. -/
def value_at (mi : MemoryInterface T) (idx : Nat) (component : Int) (s : State) :
    Except Error Int × State :=
  match mi.raw_ptr component s with
  | (.error e, s1) => (.error e, s1)
  | (.ok (ptr, path), s1) =>
    let s2 : State := { s1 with field := s1.field.fetch path }
    let el_idx := (s2.field.at_path path).dtype.element_index idx
    match read s2.heap ptr el_idx with
    | some val => (.ok val, s2)
    | none => (.error .fault, s2)

/-- The member `value(idx, std::string component)`. -/
def value (mi : MemoryInterface T) (idx : Nat) (component : String) (s : State) :
    Except Error Int × State :=
  match mi.resolve_component component s with
  | (.error e, s1) => (.error e, s1)
  | (.ok comp_idx, s1) => mi.value_at idx comp_idx s1

end MemoryInterface

/-- One mirroring call: `device_ptr_const(component)` when `device` is set,
`host_ptr_const(component)` otherwise. -/
structure Request where
  device : Bool
  component : Int
  deriving DecidableEq, Repr

namespace MemoryInterface

variable {T : ElemType}

/-- The call a request stands for. -/
def request (cuda : Bool) (mi : MemoryInterface T) (r : Request) (s : State) :
    Except Error Ptr × State :=
  if r.device then mi.device_ptr_const cuda r.component s
  else mi.host_ptr_const cuda r.component s

/-- The state after a sequence of calls, whatever each of them returns. -/
def run (cuda : Bool) (mi : MemoryInterface T) : List Request → State → State
  | [], s => s
  | r :: rs, s => run cuda mi rs (mi.request cuda r s).2

end MemoryInterface

/-- One call of a member that reads the data of the field. -/
inductive Call where
  | value (idx : Nat) (component : String)
  | value_at (idx : Nat) (component : Int)
  | accessor (location comp : String)
  | device_ptr_const (component : Int)
  | host_ptr_const (component : Int)
  deriving DecidableEq, Repr

namespace MemoryInterface

variable {T : ElemType}

/-- The state a call leaves behind, whatever it returns. -/
def call (cuda : Bool) (mi : MemoryInterface T) : Call → State → State
  | .value idx component, s => (mi.value idx component s).2
  | .value_at idx component, s => (mi.value_at idx component s).2
  | .accessor location comp, s => (mi.accessor cuda location comp s).2
  | .device_ptr_const component, s => (mi.device_ptr_const cuda component s).2
  | .host_ptr_const component, s => (mi.host_ptr_const cuda component s).2

/-- The state after a sequence of calls. -/
def calls (cuda : Bool) (mi : MemoryInterface T) : List Call → State → State
  | [], s => s
  | c :: cs, s => calls cuda mi cs (mi.call cuda c s)

end MemoryInterface

/-! ## Example data -/

/-- The field of the first scenario: "values" with the components "x" and "y", four
float64 elements each, unit stride, offset 0. -/
def xy_field : Node :=
  .object [("values", .object
    [("x", .leaf ⟨.float64, 4, 0, 8⟩ ⟨0, 0⟩ .standard),
     ("y", .leaf ⟨.float64, 4, 0, 8⟩ ⟨1, 0⟩ .standard)])]

/-- Host memory holding the elements of "x" and of "y". -/
def xy_state : State :=
  { field := xy_field
    heap := [⟨.host, [1, 2, 3, 4]⟩, ⟨.host, [5, 6, 7, 8]⟩] }

/-- The interface the constructor builds over `xy_field`. -/
def xy_interface : MemoryInterface .float64 :=
  { m_components := 2, m_path := "values", m_sizes := [4, 4] }

/-- A field "values" with exactly one child, "x", of four float64 elements. -/
def one_child_field : Node :=
  .object [("values", .object [("x", .leaf ⟨.float64, 4, 0, 8⟩ ⟨0, 0⟩ .standard)])]

/-- Host memory for `one_child_field`. -/
def one_child_state : State :=
  { field := one_child_field, heap := [⟨.host, [1, 2, 3, 4]⟩] }

/-- The interface the constructor builds over `one_child_field`. -/
def one_child_interface : MemoryInterface .float64 :=
  { m_components := 1, m_path := "values", m_sizes := [4] }

/-- The field of the second scenario: a childless "values" of ten int32 elements. -/
def scalar_field : Node :=
  .object [("values", .leaf ⟨.int32, 10, 0, 4⟩ ⟨0, 0⟩ .standard)]

/-- Host memory for `scalar_field`. -/
def scalar_state : State :=
  { field := scalar_field, heap := [⟨.host, [10, 11, 12, 13, 14, 15, 16, 17, 18, 19]⟩] }

/-- The interface the constructor builds over `scalar_field`. -/
def scalar_interface : MemoryInterface .int32 :=
  { m_components := 1, m_path := "values", m_sizes := [10] }

/-- A field "values" whose components differ in every descriptor entry: "x" has four
contiguous float64 elements, "y" has three, one every 16 bytes from byte 8 on. -/
def uneven_field : Node :=
  .object [("values", .object
    [("x", .leaf ⟨.float64, 4, 0, 8⟩ ⟨0, 0⟩ .standard),
     ("y", .leaf ⟨.float64, 3, 8, 16⟩ ⟨1, 0⟩ .standard)])]

/-- Host memory for `uneven_field`. -/
def uneven_state : State :=
  { field := uneven_field
    heap := [⟨.host, [1, 2, 3, 4]⟩, ⟨.host, [0, 5, 0, 6, 0, 7]⟩] }

/-- The interface the constructor builds over `uneven_field`. -/
def uneven_interface : MemoryInterface .float64 :=
  { m_components := 2, m_path := "values", m_sizes := [4, 3] }

/-- The second scenario after the first `device_ptr_const(0)` of an accelerator build:
the mirror "device_values" holds a copy of the ten elements in device memory. -/
def scalar_state_mirrored : State :=
  { field := .object
      [("values", .leaf ⟨.int32, 10, 0, 4⟩ ⟨0, 0⟩ .standard),
       ("device_values", .leaf ⟨.int32, 10, 0, 4⟩ ⟨1, 0⟩ .device)]
    heap := [⟨.host, [10, 11, 12, 13, 14, 15, 16, 17, 18, 19]⟩,
             ⟨.device, [10, 11, 12, 13, 14, 15, 16, 17, 18, 19]⟩] }

/-- A childless field "values" of three int32 elements that live in device memory. -/
def device_state : State :=
  { field := .object [("values", .leaf ⟨.int32, 3, 0, 4⟩ ⟨0, 0⟩ .device)]
    heap := [⟨.device, [7, 8, 9]⟩] }

/-- The state `device_state` after the first `host_ptr_const(0)`: the mirror
"host_values" holds a copy of the three elements in host memory. -/
def device_state_mirrored : State :=
  { field := .object
      [("values", .leaf ⟨.int32, 3, 0, 4⟩ ⟨0, 0⟩ .device),
       ("host_values", .leaf ⟨.int32, 3, 0, 4⟩ ⟨1, 0⟩ .host)]
    heap := [⟨.device, [7, 8, 9]⟩, ⟨.host, [7, 8, 9]⟩] }

/-- The interface the constructor builds over the field of `device_state`. -/
def device_interface : MemoryInterface .int32 :=
  { m_components := 1, m_path := "values", m_sizes := [3] }

/-- The state `xy_state` after `device_ptr_const(0)` of an accelerator build: the
mirror of "x" sits at "device_values/x". -/
def xy_state_mirrored : State :=
  { field := .object
      [("values", .object
        [("x", .leaf ⟨.float64, 4, 0, 8⟩ ⟨0, 0⟩ .standard),
         ("y", .leaf ⟨.float64, 4, 0, 8⟩ ⟨1, 0⟩ .standard)]),
       ("device_values", .object [("x", .leaf ⟨.float64, 4, 0, 8⟩ ⟨2, 0⟩ .device)])]
    heap := [⟨.host, [1, 2, 3, 4]⟩, ⟨.host, [5, 6, 7, 8]⟩, ⟨.device, [1, 2, 3, 4]⟩] }

/-- Requests interleaved between two requests for the device mirror of "x": the
host pointer of "y", the device mirror of "y", the host pointer of "x". -/
def xy_requests : List Request :=
  [⟨false, 1⟩, ⟨true, 1⟩, ⟨false, 0⟩]

/-- A field "values" whose second child of three holds int32 elements while the
others hold float64 elements. -/
def mixed_field : Node :=
  .object [("values", .object
    [("x", .leaf ⟨.float64, 2, 0, 8⟩ ⟨0, 0⟩ .standard),
     ("y", .leaf ⟨.int32, 2, 0, 4⟩ ⟨1, 0⟩ .standard),
     ("z", .leaf ⟨.float64, 2, 0, 8⟩ ⟨2, 0⟩ .standard)])]

/-- A node without the path "values". -/
def other_field : Node :=
  .object [("coords", .leaf ⟨.float64, 2, 0, 8⟩ ⟨0, 0⟩ .standard)]

/-- A childless field "values" of two contiguous float64 elements that are the start
of a buffer of seventeen elements. -/
def wide_state : State :=
  { field := .object [("values", .leaf ⟨.float64, 2, 0, 8⟩ ⟨0, 0⟩ .standard)]
    heap := [⟨.host, [100, 101, 102, 103, 104, 105, 106, 107, 108, 109, 110, 111, 112, 113,
      114, 115, 116]⟩] }

/-- The interface the constructor builds over the field of `wide_state`. -/
def wide_interface : MemoryInterface .float64 :=
  { m_components := 1, m_path := "values", m_sizes := [2] }

/-- A childless field "values" of three float64 elements in host memory, one every 16
bytes: the logical elements are 5, 6, 7. -/
def strided_state : State :=
  { field := .object [("values", .leaf ⟨.float64, 3, 0, 16⟩ ⟨0, 0⟩ .standard)]
    heap := [⟨.host, [5, 0, 6, 0, 7]⟩] }

/-- The interface the constructor builds over the field of `strided_state`. -/
def strided_interface : MemoryInterface .float64 :=
  { m_components := 1, m_path := "values", m_sizes := [3] }

/-- Calls of every kind, run between two readings of `size`. -/
def xy_calls : List Call :=
  [.accessor "device" "y", .value 0 "x", .host_ptr_const 1, .device_ptr_const 1,
   .value_at 0 1, .accessor "host" "x"]

open MemoryInterface

theorem find_child_update_child (g : Option Node → Node) (name : String) (cs : List (String × Node)) :
    find_child name (update_child g name cs) = some (g (find_child name cs)) := by
  induction cs with
  | nil => simp [update_child, find_child]
  | cons hd tl ih =>
    obtain ⟨k, c⟩ := hd
    by_cases h : k = name
    · simp [update_child, find_child, h]
    · simp [update_child, find_child, h, ih]

theorem update_child_self (g : Option Node → Node) (name : String) (cs : List (String × Node))
    (c : Node) (hc : find_child name cs = some c) (hg : g (some c) = c) :
    update_child g name cs = cs := by
  induction cs with
  | nil => simp [find_child] at hc
  | cons hd tl ih =>
    obtain ⟨k, c'⟩ := hd
    by_cases h : k = name
    · simp [find_child, h] at hc
      simp [update_child, h, hc, hg]
    · simp [find_child, h] at hc
      simp [update_child, h, ih hc]

theorem children_of_find_child {n : Node} {name : String} {c : Node}
    (h : find_child name n.children = some c) : n = .object n.children := by
  cases n with
  | empty => simp [Node.children, find_child] at h
  | leaf d p a => simp [Node.children, find_child] at h
  | object cs => rfl

@[simp] theorem children_object (cs : List (String × Node)) : (Node.object cs).children = cs := rfl
@[simp] theorem children_empty : Node.empty.children = [] := rfl
@[simp] theorem children_leaf (d : DataType) (p : Ptr) (a : AllocatorId) :
    (Node.leaf d p a).children = [] := rfl

theorem get?_modify_self (f : Node → Node) (segs : List String) (n : Node) :
    (n.modify f segs).get? segs = some (f ((n.get? segs).getD .empty)) := by
  induction segs generalizing n with
  | nil => simp [Node.modify, Node.get?]
  | cons s rest ih =>
    simp only [Node.modify, Node.get?, children_object, find_child_update_child]
    rw [ih]
    cases hfc : find_child s n.children with
    | some c => simp
    | none =>
      cases rest with
      | nil => simp [Node.get?]
      | cons s2 r2 => simp [Node.get?, find_child]

theorem modify_id_of_get? (segs : List String) (n c : Node) (h : n.get? segs = some c) :
    n.modify id segs = n := by
  induction segs generalizing n with
  | nil => simp [Node.modify]
  | cons s rest ih =>
    simp only [Node.get?] at h
    cases hfc : find_child s n.children with
    | none => simp [hfc] at h
    | some c' =>
      simp only [hfc] at h
      simp only [Node.modify]
      rw [update_child_self _ s n.children c' hfc (by simpa using ih c' h)]
      exact (children_of_find_child hfc).symm


theorem fetch_of_has_path {n : Node} {path : String} (h : n.has_path path = true) :
    n.fetch path = n := by
  unfold Node.has_path at h
  obtain ⟨c, hc⟩ := Option.isSome_iff_exists.mp h
  exact modify_id_of_get? _ n c hc

@[simp] theorem at_path_fetch (n : Node) (path : String) :
    (n.fetch path).at_path path = n.at_path path := by
  unfold Node.fetch Node.at_path
  rw [get?_modify_self]
  simp

theorem constructor_loop_snd (T : ElemType) (cs : List (String × Node)) :
    (constructor_loop T cs).2 = cs.map (fun c => c.2.dtype.number_of_elements) := by
  induction cs with
  | nil => rfl
  | cons hd tl ih => obtain ⟨k, c⟩ := hd; simp [constructor_loop, ih]

theorem constructor_loop_fst (T : ElemType) (cs : List (String × Node)) :
    (constructor_loop T cs).1 = true ↔ ∀ c ∈ cs, is_conduit_type T c.2 = true := by
  induction cs with
  | nil => simp [constructor_loop]
  | cons hd tl ih => obtain ⟨k, c⟩ := hd; simp [constructor_loop, ih]

/-- What a successful construction records. -/
theorem new_ok {T : ElemType} {field : Node} {path : String} {mi : MemoryInterface T}
    (h : MemoryInterface.new T field path = .ok mi) :
    field.has_path path = true ∧ mi.m_path = path ∧
    mi.m_components =
      (if (field.at_path path).number_of_children = 0 ∨ (field.at_path path).number_of_children = 1
        then 1 else ((field.at_path path).number_of_children : Int)) ∧
    mi.m_sizes =
      (if (field.at_path path).number_of_children = 0
        then [(field.at_path path).dtype.number_of_elements]
        else (field.at_path path).children.map (fun c => c.2.dtype.number_of_elements)) ∧
    (if (field.at_path path).number_of_children = 0
        then is_conduit_type T (field.at_path path) = true
        else ∀ c ∈ (field.at_path path).children, is_conduit_type T c.2 = true) := by
  unfold MemoryInterface.new at h
  by_cases hp : field.has_path path = true
  · simp only [hp, Bool.not_true, Bool.false_eq_true, if_false] at h
    by_cases hc : (field.at_path path).number_of_children = 0
    · simp only [hc, if_true] at h
      by_cases ht : is_conduit_type T (field.at_path path) = true
      · simp only [ht, Bool.not_true, Bool.false_eq_true, if_false] at h
        injection h with h
        subst h
        simp [hp, hc, ht]
      · simp [ht] at h
    · simp only [hc, if_false] at h
      by_cases ht : (constructor_loop T (field.at_path path).children).1 = true
      · simp only [ht, Bool.not_true, Bool.false_eq_true, if_false] at h
        injection h with h
        subst h
        simp only [hp, hc, if_false, true_and, constructor_loop_snd, false_or]
        exact (constructor_loop_fst T _).mp ht
      · simp [ht] at h
  · simp [hp] at h

theorem is_conduit_type_leaf (T : ElemType) (d : DataType) (p : Ptr) (a : AllocatorId) :
    is_conduit_type T (.leaf d p a) = true ↔ d.id = T.id := by
  simp [is_conduit_type, Node.dtype]

theorem state_fetch_of_has_path {s : State} {path : String} (h : s.field.has_path path = true) :
    ({ s with field := s.field.fetch path } : State) = s := by
  rw [fetch_of_has_path h]

theorem child_lt {n : Node} {i : Int} (h0 : 0 ≤ i) (h1 : i < (n.number_of_children : Int)) :
    ∃ name c, n.child i = some (name, c) := by
  unfold Node.child
  have hlt : i.toNat < n.children.length := by
    unfold Node.number_of_children at h1; omega
  simp only [not_lt.mpr h0, if_false]
  rw [List.get?_eq_get hlt]
  exact ⟨_, _, rfl⟩



theorem resolve_loop_none (name : String) (cs : List (String × Node)) (i : Nat) :
    resolve_loop name cs i = none ↔ ∀ c ∈ cs, c.1 ≠ name := by
  induction cs generalizing i with
  | nil => simp [resolve_loop]
  | cons hd tl ih =>
    obtain ⟨k, c⟩ := hd
    by_cases h : name = k
    · simp [resolve_loop, h]
    · simp [resolve_loop, h, ih, Ne.symm h]

theorem resolve_loop_some (name : String) (cs : List (String × Node)) (i k : Nat) :
    resolve_loop name cs i = some k ↔
      ∃ j, k = i + j ∧ (∃ c, cs.get? j = some c ∧ c.1 = name) ∧
        ∀ l < j, ∀ c, cs.get? l = some c → c.1 ≠ name := by
  induction cs generalizing i with
  | nil => simp [resolve_loop]
  | cons hd tl ih =>
    obtain ⟨nm, c⟩ := hd
    by_cases h : name = nm
    · subst h
      simp only [resolve_loop, if_true, Option.some.injEq]
      constructor
      · intro hk
        exact ⟨0, by omega, ⟨_, rfl, rfl⟩, by intro l hl; omega⟩
      · rintro ⟨j, hj, -, hmin⟩
        cases j with
        | zero => omega
        | succ j => exact absurd rfl (hmin 0 (by omega) (name, c) rfl)
    · simp only [resolve_loop, h, if_false, ih]
      constructor
      · rintro ⟨j, hj, ⟨c', hc', hn⟩, hmin⟩
        refine ⟨j + 1, by omega, ⟨c', by simpa using hc', hn⟩, ?_⟩
        intro l hl c'' hc''
        cases l with
        | zero => simp at hc''; subst hc''; exact fun h' => h h'.symm
        | succ l => exact hmin l (by omega) c'' (by simpa using hc'')
      · rintro ⟨j, hj, ⟨c', hc', hn⟩, hmin⟩
        cases j with
        | zero => simp at hc'; subst hc'; exact absurd hn.symm h
        | succ j =>
          refine ⟨j, by omega, ⟨c', by simpa using hc', hn⟩, ?_⟩
          intro l hl c'' hc''
          exact hmin (l + 1) (by omega) c'' (by simpa using hc'')


/-! ## Facts about paths -/

theorem split_segments_ne_nil (l : List Char) : split_segments l ≠ [] := by
  cases l with
  | nil => simp [split_segments]
  | cons c rest =>
    unfold split_segments
    by_cases h : c = '/'
    · simp only [h, if_true]
      cases rest <;> simp
    · simp only [h, if_false]
      cases split_segments rest <;> simp

theorem split_segments_cons {c : Char} (h : c ≠ '/') (l : List Char) :
    split_segments (c :: l) =
      (c :: (split_segments l).headD []) :: (split_segments l).tail := by
  conv_lhs => rw [split_segments.eq_def]
  simp only [h, if_false]
  cases hs : split_segments l with
  | nil => exact absurd hs (split_segments_ne_nil l)
  | cons a t => simp

theorem split_segments_append (pre : List Char) (hpre : '/' ∉ pre) (l : List Char) :
    split_segments (pre ++ l) =
      (pre ++ (split_segments l).headD []) :: (split_segments l).tail := by
  induction pre with
  | nil =>
    cases hs : split_segments l with
    | nil => exact absurd hs (split_segments_ne_nil l)
    | cons a t => simp [hs]
  | cons c pre ih =>
    have hc : c ≠ '/' := fun h => hpre (by simp [h])
    have hp : '/' ∉ pre := fun h => hpre (by simp [h])
    rw [List.cons_append, split_segments_cons hc, ih hp]
    simp

theorem split_segments_head_slash (p q : List Char) :
    (split_segments (p ++ '/' :: q)).headD [] = (split_segments p).headD [] := by
  induction p with
  | nil =>
    simp only [List.nil_append]
    conv_lhs => rw [split_segments.eq_def]
    cases q <;> simp [split_segments]
  | cons c p ih =>
    by_cases h : c = '/'
    · subst h
      rw [List.cons_append]
      conv_lhs => rw [split_segments.eq_def]
      conv_rhs => rw [split_segments.eq_def]
      simp only [if_true]
      cases p with
      | nil => simp
      | cons a p => simp
    · rw [List.cons_append, split_segments_cons h, split_segments_cons h, ih]
      simp

/-- The first child name a path walks through. -/
theorem path_segments_eq_cons (p : String) :
    path_segments p =
      String.mk ((split_segments p.data).headD []) ::
        ((split_segments p.data).tail.map String.mk) := by
  unfold path_segments
  cases hs : split_segments p.data with
  | nil => exact absurd hs (split_segments_ne_nil _)
  | cons a t => simp

theorem path_segments_tag (pre p : String) (hpre : '/' ∉ pre.data) :
    path_segments (pre ++ p) =
      (pre ++ String.mk ((split_segments p.data).headD [])) ::
        ((split_segments p.data).tail.map String.mk) := by
  unfold path_segments
  rw [String.data_append, split_segments_append _ hpre]
  simp only [List.map_cons]
  congr 1

theorem path_segments_head_slash (p q : String) :
    (split_segments (p ++ "/" ++ q).data).headD [] = (split_segments p.data).headD [] := by
  have : (p ++ "/" ++ q).data = p.data ++ '/' :: q.data := by
    simp [String.data_append]
  rw [this, split_segments_head_slash]

theorem prefix_ne_self (pre a : String) (hpre : pre ≠ "") : pre ++ a ≠ a := by
  intro h
  have h2 := congrArg String.length h
  rw [String.length_append] at h2
  have : pre.length ≠ 0 := by
    intro h0
    apply hpre
    cases pre with
    | mk d =>
      simp [String.length] at h0
      simp [h0]
  omega


/-! ## Facts about `raw_ptr` -/

variable {T : ElemType}

theorem find_child_update_child_ne (g : Option Node → Node) {a b : String} (h : a ≠ b)
    (cs : List (String × Node)) :
    find_child b (update_child g a cs) = find_child b cs := by
  induction cs with
  | nil => simp [update_child, find_child, h]
  | cons hd tl ih =>
    obtain ⟨k, c⟩ := hd
    by_cases hk : k = a
    · subst hk
      simp [update_child, find_child, h]
    · by_cases hb : k = b
      · subst hb
        simp [update_child, find_child, hk]
      · simp [update_child, find_child, hk, hb, ih]

/-- A rewrite below one child leaves every path through another child alone. -/
theorem get?_modify_of_head_ne (f : Node → Node) (n : Node) {a b : String} (h : a ≠ b)
    (r r' : List String) :
    (n.modify f (a :: r)).get? (b :: r') = n.get? (b :: r') := by
  simp only [Node.modify, Node.get?, children_object, find_child_update_child_ne _ h]

theorem has_path_of_at_path_ne_empty {n : Node} {path : String}
    (h : n.at_path path ≠ .empty) : n.has_path path = true := by
  unfold Node.at_path at h
  unfold Node.has_path
  cases hg : n.get? (path_segments path) with
  | none => simp [hg] at h
  | some c => rfl

theorem at_path_eq_of_has_path {n : Node} {path : String} (h : n.has_path path = true) :
    n.get? (path_segments path) = some (n.at_path path) := by
  unfold Node.has_path at h
  unfold Node.at_path
  obtain ⟨c, hc⟩ := Option.isSome_iff_exists.mp h
  simp [hc]

theorem conduit_ptr_some {T : ElemType} {n : Node} {p : Ptr} (h : conduit_ptr T n = some p) :
    ∃ d a, n = .leaf d p a ∧ d.id = T.id := by
  cases n with
  | empty => simp [conduit_ptr] at h
  | object cs => simp [conduit_ptr] at h
  | leaf d q a =>
    simp only [conduit_ptr] at h
    by_cases hd : d.id = T.id
    · simp only [hd, if_true, Option.some.injEq] at h
      exact ⟨d, a, by rw [h], hd⟩
    · simp [hd] at h

/-- The shapes of a component path. -/
theorem component_path_ok {mi : MemoryInterface T} {c : Int} {s s1 : State} {leaf : String}
    (h : mi.component_path c s = (.ok leaf, s1)) :
    s1 = { s with field := s.field.fetch mi.m_path } ∧ 0 ≤ c ∧ c < mi.m_components ∧
    ((leaf = mi.m_path ∧ (s.field.at_path mi.m_path).number_of_children = 0) ∨
      (∃ name nd, (s.field.at_path mi.m_path).child c = some (name, nd) ∧
        leaf = mi.m_path ++ "/" ++ name ∧ 0 < (s.field.at_path mi.m_path).number_of_children)) := by
  unfold component_path at h
  by_cases hr : c < 0 ∨ c ≥ mi.m_components
  · simp [hr] at h
  · simp only [hr, if_false, at_path_fetch] at h
    have h0 : 0 ≤ c ∧ c < mi.m_components := by omega
    by_cases hc : (s.field.at_path mi.m_path).number_of_children > 0
    · simp only [hc, if_true] at h
      cases hch : (s.field.at_path mi.m_path).child c with
      | none => simp [hch] at h
      | some nc =>
        obtain ⟨name, nd⟩ := nc
        simp only [hch, Prod.mk.injEq, Except.ok.injEq] at h
        exact ⟨h.2.symm, h0.1, h0.2, Or.inr ⟨name, nd, rfl, h.1.symm, hc⟩⟩
    · simp only [hc, if_false, Prod.mk.injEq, Except.ok.injEq] at h
      exact ⟨h.2.symm, h0.1, h0.2, Or.inl ⟨h.1.symm, by omega⟩⟩

/-- A component path starts with the child name the base path starts with. -/
theorem component_path_head {mi : MemoryInterface T} {c : Int} {s s1 : State} {leaf : String}
    (h : mi.component_path c s = (.ok leaf, s1)) :
    (split_segments leaf.data).headD [] = (split_segments mi.m_path.data).headD [] := by
  obtain ⟨-, -, -, hl | ⟨name, nd, -, hl, -⟩⟩ := component_path_ok h
  · rw [hl.1]
  · rw [hl, path_segments_head_slash]

/-- A successful `raw_ptr` leaves the state as it is: the component's leaf exists
and holds elements of type `T`. -/
theorem raw_ptr_ok {mi : MemoryInterface T} {c : Int} {s s1 : State} {p : Ptr} {leaf : String}
    (h : mi.raw_ptr c s = (.ok (p, leaf), s1)) :
    s1 = s ∧ mi.component_path c s = (.ok leaf, s) ∧ s.field.has_path mi.m_path = true ∧
    s.field.has_path leaf = true ∧ conduit_ptr T (s.field.at_path leaf) = some p := by
  unfold raw_ptr at h
  cases hcp : mi.component_path c s with
  | mk r sA =>
    cases r with
    | error e => simp [hcp] at h
    | ok leaf' =>
      simp only [hcp, at_path_fetch] at h
      cases hptr : conduit_ptr T (sA.field.at_path leaf') with
      | none => simp [hptr] at h
      | some q =>
        simp only [hptr, Prod.mk.injEq, Except.ok.injEq] at h
        obtain ⟨⟨hq, hleaf⟩, hs1⟩ := h
        subst hq hleaf
        obtain ⟨d, a, hnode, hid⟩ := conduit_ptr_some hptr
        have hpA : sA.field.has_path leaf' = true :=
          has_path_of_at_path_ne_empty (by rw [hnode]; simp)
        obtain ⟨hsA, -, -, hshape⟩ := component_path_ok hcp
        have hpm : s.field.has_path mi.m_path = true := by
          rcases hshape with ⟨hl, -⟩ | ⟨name, nd, -, -, hpos⟩
          · apply has_path_of_at_path_ne_empty
            have : sA.field.at_path leaf' = s.field.at_path mi.m_path := by
              rw [hsA, hl]; simp
            rw [← this, hnode]; simp
          · apply has_path_of_at_path_ne_empty
            intro he
            rw [he] at hpos
            simp [Node.number_of_children] at hpos
        have hsAs : sA = s := by rw [hsA]; exact state_fetch_of_has_path hpm
        subst hsAs
        have hs1' : s1 = sA := by rw [← hs1]; exact state_fetch_of_has_path hpA
        subst hs1'
        exact ⟨rfl, rfl, hpm, hpA, hptr⟩

/-- A state with the same base node and the same leaf gives the same `raw_ptr`. -/
theorem raw_ptr_frame {mi : MemoryInterface T} {c : Int} {s s' : State} {p : Ptr} {leaf : String}
    (h : mi.raw_ptr c s = (.ok (p, leaf), s))
    (hm : s'.field.get? (path_segments mi.m_path) = s.field.get? (path_segments mi.m_path))
    (hl : s'.field.get? (path_segments leaf) = s.field.get? (path_segments leaf)) :
    mi.raw_ptr c s' = (.ok (p, leaf), s') := by
  obtain ⟨-, hcp, hpm, hpl, hptr⟩ := raw_ptr_ok h
  have hpm' : s'.field.has_path mi.m_path = true := by
    unfold Node.has_path at hpm ⊢; rw [hm]; exact hpm
  have hpl' : s'.field.has_path leaf = true := by
    unfold Node.has_path at hpl ⊢; rw [hl]; exact hpl
  have hatm : s'.field.at_path mi.m_path = s.field.at_path mi.m_path := by
    unfold Node.at_path; rw [hm]
  have hatl : s'.field.at_path leaf = s.field.at_path leaf := by
    unfold Node.at_path; rw [hl]
  have hcp' : mi.component_path c s' = (.ok leaf, s') := by
    have h1 := hcp
    unfold component_path at h1 ⊢
    by_cases hr : c < 0 ∨ c ≥ mi.m_components
    · simp [hr] at h1
    · simp only [hr, if_false, at_path_fetch, state_fetch_of_has_path hpm] at h1
      simp only [hr, if_false, at_path_fetch, state_fetch_of_has_path hpm', hatm]
      by_cases hc : (s.field.at_path mi.m_path).number_of_children > 0
      · simp only [hc, if_true] at h1 ⊢
        cases hch : (s.field.at_path mi.m_path).child c with
        | none => simp [hch] at h1
        | some nc =>
          simp only [hch, Prod.mk.injEq, Except.ok.injEq] at h1 ⊢
          exact ⟨h1.1, trivial⟩
      · simp only [hc, if_false, Prod.mk.injEq, Except.ok.injEq] at h1 ⊢
        exact ⟨h1.1, trivial⟩
  unfold raw_ptr
  simp only [hcp', at_path_fetch, hatl, hptr, state_fetch_of_has_path hpl']


/-! ## Facts about the mirror cache -/

theorem create_mirror_some {id : AllocatorId} {path : String} {p : Ptr} {sz : Option Nat}
    {s s2 : State} (h : create_mirror T id path p sz s = some s2) :
    ∃ n elems, sz = some n ∧ copy_elements s.heap p n = some elems ∧
      s2 = { field := s.field.modify
               (fun _ => .leaf ⟨T.id, n, 0, T.sizeof⟩ ⟨s.heap.length, 0⟩ id) (path_segments path)
             heap := s.heap ++ [⟨id.space, elems⟩] } := by
  unfold create_mirror at h
  cases sz with
  | none => simp at h
  | some n =>
    cases hc : copy_elements s.heap p n with
    | none => simp [hc] at h
    | some elems =>
      simp only [hc, Option.some.injEq] at h
      exact ⟨n, elems, rfl, hc, h.symm⟩

theorem mirror_ptr_of_leaf {path : String} {s : State} {d : DataType} {q : Ptr}
    {a : AllocatorId} (h : s.field.get? (path_segments path) = some (.leaf d q a))
    (hid : d.id = T.id) : mirror_ptr T path s = (.ok q, s) := by
  have hp : s.field.has_path path = true := by unfold Node.has_path; rw [h]; rfl
  have hat : s.field.at_path path = .leaf d q a := by unfold Node.at_path; rw [h]; rfl
  unfold mirror_ptr
  simp only [at_path_fetch, hat, conduit_ptr, hid, if_true, state_fetch_of_has_path hp]

theorem mirror_ptr_ok {path : String} {s s' : State} {q : Ptr}
    (h : mirror_ptr T path s = (.ok q, s')) :
    s' = s ∧ ∃ d a, s.field.get? (path_segments path) = some (.leaf d q a) ∧ d.id = T.id := by
  unfold mirror_ptr at h
  simp only [at_path_fetch] at h
  cases hptr : conduit_ptr T (s.field.at_path path) with
  | none => simp [hptr] at h
  | some q' =>
    simp only [hptr, Prod.mk.injEq, Except.ok.injEq] at h
    obtain ⟨hq, hs⟩ := h
    subst hq
    obtain ⟨d, a, hnode, hid⟩ := conduit_ptr_some hptr
    have hp : s.field.has_path path = true :=
      has_path_of_at_path_ne_empty (by rw [hnode]; simp)
    refine ⟨?_, d, a, ?_, hid⟩
    · rw [← hs]; exact state_fetch_of_has_path hp
    · rw [at_path_eq_of_has_path hp, hnode]

/-- A mirror leaf that is present is returned as it is. -/
theorem mirror_at_hit {id : AllocatorId} {path : String} {p : Ptr} {sz : Option Nat}
    {s : State} {d : DataType} {q : Ptr} {a : AllocatorId}
    (h : s.field.get? (path_segments path) = some (.leaf d q a)) (hid : d.id = T.id) :
    mirror_at T id path p sz s = (.ok q, s) := by
  have hp : s.field.has_path path = true := by unfold Node.has_path; rw [h]; rfl
  unfold mirror_at
  simp only [hp, Bool.not_true, Bool.false_eq_true, if_false]
  exact mirror_ptr_of_leaf h hid

/-- The two ways in which the cache branch succeeds. -/
theorem mirror_at_ok {id : AllocatorId} {path : String} {p : Ptr} {sz : Option Nat}
    {s s' : State} {q : Ptr} (h : mirror_at T id path p sz s = (.ok q, s')) :
    (∃ d a, s'.field.get? (path_segments path) = some (.leaf d q a) ∧ d.id = T.id) ∧
    ((s' = s ∧ s.field.has_path path = true) ∨
      (s.field.has_path path = false ∧ q = ⟨s.heap.length, 0⟩ ∧
        ∃ n elems, sz = some n ∧ copy_elements s.heap p n = some elems ∧
          s' = { field := s.field.modify
                   (fun _ => .leaf ⟨T.id, n, 0, T.sizeof⟩ ⟨s.heap.length, 0⟩ id)
                   (path_segments path)
                 heap := s.heap ++ [⟨id.space, elems⟩] })) := by
  unfold mirror_at at h
  by_cases hp : s.field.has_path path = true
  · simp only [hp, Bool.not_true, Bool.false_eq_true, if_false] at h
    obtain ⟨hs, d, a, hg, hid⟩ := mirror_ptr_ok h
    subst hs
    exact ⟨⟨d, a, hg, hid⟩, Or.inl ⟨rfl, hp⟩⟩
  · have hp' : s.field.has_path path = false := by simpa using hp
    simp only [hp', Bool.not_false, if_true] at h
    cases hc : create_mirror T id path p sz s with
    | none => simp [hc] at h
    | some s2 =>
      simp only [hc] at h
      obtain ⟨n, elems, hsz, hcopy, hs2⟩ := create_mirror_some hc
      have hg : s2.field.get? (path_segments path) =
          some (.leaf ⟨T.id, n, 0, T.sizeof⟩ ⟨s.heap.length, 0⟩ id) := by
        rw [hs2]; simp only [get?_modify_self]
      have h2 : mirror_ptr T path s2 = (.ok ⟨s.heap.length, 0⟩, s2) := mirror_ptr_of_leaf hg rfl
      rw [h2] at h
      simp only [Prod.mk.injEq, Except.ok.injEq] at h
      obtain ⟨hq, hs⟩ := h
      subst hq hs
      exact ⟨⟨_, _, hg, rfl⟩, Or.inr ⟨hp', rfl, n, elems, hsz, hcopy, hs2⟩⟩

theorem copy_elements_some_lt {heap : List Buffer} {p : Ptr} {n : Nat} {elems : List Int}
    (h : copy_elements heap p n = some elems) : p.buf < heap.length := by
  unfold copy_elements at h
  cases hg : heap.get? p.buf with
  | none => rw [hg] at h; cases h
  | some b => exact (List.get?_eq_some.mp hg).1

theorem gpu_ptr_attributes_append {heap : List Buffer} {p : Ptr} (h : p.buf < heap.length)
    (ext : List Buffer) : gpu_ptr_attributes (heap ++ ext) p = gpu_ptr_attributes heap p := by
  unfold gpu_ptr_attributes
  simp only [List.get?_eq_getElem?]
  rw [List.getElem?_append_left h]

theorem read_append {heap : List Buffer} {p : Ptr} (h : p.buf < heap.length)
    (ext : List Buffer) (k : Nat) : read (heap ++ ext) p k = read heap p k := by
  unfold read
  simp only [List.get?_eq_getElem?]
  rw [List.getElem?_append_left h]

/-- After the cache branch has succeeded for a component, the component's stored
pointer, its provenance and the mirror are as the branch left them. -/
theorem mirror_at_stable {mi : MemoryInterface T} {c : Int} {s s1 : State} {p q : Ptr}
    {leaf : String} {id : AllocatorId} {sz : Option Nat} (pre : String)
    (hpre : '/' ∉ pre.data) (hne : pre ≠ "")
    (hraw : mi.raw_ptr c s = (.ok (p, leaf), s))
    (hm : mirror_at T id (pre ++ leaf) p sz s = (.ok q, s1)) :
    mi.raw_ptr c s1 = (.ok (p, leaf), s1) ∧
    gpu_ptr_attributes s1.heap p = gpu_ptr_attributes s.heap p ∧
    mirror_at T id (pre ++ leaf) p sz s1 = (.ok q, s1) := by
  obtain ⟨⟨d, a, hg, hid⟩, hcase⟩ := mirror_at_ok hm
  have hhit : mirror_at T id (pre ++ leaf) p sz s1 = (.ok q, s1) := mirror_at_hit hg hid
  rcases hcase with ⟨hs, -⟩ | ⟨-, -, n, elems, -, hcopy, hs1⟩
  · subst hs
    exact ⟨hraw, rfl, hhit⟩
  · obtain ⟨-, hcp, -, -, -⟩ := raw_ptr_ok hraw
    have hhead := component_path_head hcp
    have hsegs := path_segments_tag pre leaf hpre
    have hneq : pre ++ String.mk ((split_segments leaf.data).headD []) ≠
        String.mk ((split_segments leaf.data).headD []) := prefix_ne_self _ _ hne
    refine ⟨raw_ptr_frame hraw ?_ ?_, ?_, hhit⟩
    · rw [hs1]
      show Node.get? (Node.modify _ s.field (path_segments (pre ++ leaf))) _ = _
      rw [hsegs, path_segments_eq_cons mi.m_path, ← hhead]
      exact get?_modify_of_head_ne _ _ hneq _ _
    · rw [hs1]
      show Node.get? (Node.modify _ s.field (path_segments (pre ++ leaf))) _ = _
      rw [hsegs, path_segments_eq_cons leaf]
      exact get?_modify_of_head_ne _ _ hneq _ _
    · rw [hs1]
      exact gpu_ptr_attributes_append (copy_elements_some_lt hcopy) _


/-! ## Facts about the two mirroring members -/

theorem device_ptr_const_of_raw_ptr (cuda : Bool) {mi : MemoryInterface T} {c : Int}
    {s s1 : State} {p : Ptr} {leaf : String} (h : mi.raw_ptr c s = (.ok (p, leaf), s1)) :
    mi.device_ptr_const cuda c s =
      if cuda then
        if is_gpu_ptr s1.heap p then (.ok p, s1)
        else mirror_at T conduit_device_allocator_id ("device_" ++ leaf) p (mi.size c) s1
      else (.ok p, s1) := by
  unfold device_ptr_const
  rw [h]

theorem host_ptr_const_of_raw_ptr (cuda : Bool) {mi : MemoryInterface T} {c : Int}
    {s s1 : State} {p : Ptr} {leaf : String} (h : mi.raw_ptr c s = (.ok (p, leaf), s1)) :
    mi.host_ptr_const cuda c s =
      if cuda then
        if (!(gpu_ptr_attributes s1.heap p).1 ||
            ((gpu_ptr_attributes s1.heap p).1 && (gpu_ptr_attributes s1.heap p).2)) then
          (.ok p, s1)
        else mirror_at T conduit_host_allocator_id ("host_" ++ leaf) p (mi.size c) s1
      else (.ok p, s1) := by
  unfold host_ptr_const
  rw [h]

theorem raw_ptr_of_device_ptr_const {cuda : Bool} {mi : MemoryInterface T} {c : Int}
    {s s1 : State} {q : Ptr} (h : mi.device_ptr_const cuda c s = (.ok q, s1)) :
    ∃ p leaf, mi.raw_ptr c s = (.ok (p, leaf), s) := by
  unfold device_ptr_const at h
  cases hr : mi.raw_ptr c s with
  | mk r s2 =>
    cases r with
    | error e => simp [hr] at h
    | ok pl =>
      obtain ⟨p, leaf⟩ := pl
      obtain ⟨hs, -⟩ := raw_ptr_ok hr
      exact ⟨p, leaf, by rw [hs]⟩

theorem raw_ptr_of_host_ptr_const {cuda : Bool} {mi : MemoryInterface T} {c : Int}
    {s s1 : State} {q : Ptr} (h : mi.host_ptr_const cuda c s = (.ok q, s1)) :
    ∃ p leaf, mi.raw_ptr c s = (.ok (p, leaf), s) := by
  unfold host_ptr_const at h
  cases hr : mi.raw_ptr c s with
  | mk r s2 =>
    cases r with
    | error e => simp [hr] at h
    | ok pl =>
      obtain ⟨p, leaf⟩ := pl
      obtain ⟨hs, -⟩ := raw_ptr_ok hr
      exact ⟨p, leaf, by rw [hs]⟩

theorem device_tag_no_slash : '/' ∉ ("device_" : String).data := by decide
theorem host_tag_no_slash : '/' ∉ ("host_" : String).data := by decide


/-! ## Facts about a cache miss -/

theorem copy_from_some (data : List Int) (n start : Nat) (elems : List Int)
    (h : copy_from data start n = some elems) :
    elems.length = n ∧ ∀ k < n, elems[k]? = data[start + k]? ∧
      (data[start + k]?).isSome = true := by
  induction n generalizing start elems with
  | zero =>
    simp only [copy_from, Option.some.injEq] at h
    subst h
    exact ⟨rfl, fun k hk => absurd hk (Nat.not_lt_zero k)⟩
  | succ n ih =>
    rw [copy_from] at h
    cases hv : data[start]? with
    | none => simp [hv] at h
    | some v =>
      cases hvs : copy_from data (start + 1) n with
      | none => simp [hv, hvs] at h
      | some vs =>
        simp only [List.get?_eq_getElem?, hv, hvs, Option.some.injEq] at h
        subst h
        obtain ⟨hlen, hget⟩ := ih (start + 1) vs hvs
        refine ⟨by simp [hlen], ?_⟩
        intro k hk
        cases k with
        | zero => simp [hv]
        | succ k =>
          have := hget k (by omega)
          have heq : start + 1 + k = start + (k + 1) := by omega
          rw [heq] at this
          simpa using this

/-- The elements of a new mirror buffer are the elements read from the source. -/
theorem read_new_buffer {heap : List Buffer} {p : Ptr} {n : Nat} {elems : List Int}
    (sp : Space) (h : copy_elements heap p n = some elems) :
    elems.length = n ∧ ∀ k < n,
      read (heap ++ [⟨sp, elems⟩]) ⟨heap.length, 0⟩ k = read heap p k ∧
      (read heap p k).isSome = true := by
  unfold copy_elements at h
  cases hb : heap.get? p.buf with
  | none => rw [hb] at h; cases h
  | some b =>
    rw [hb] at h
    obtain ⟨hlen, hget⟩ := copy_from_some b.data n p.off elems h
    refine ⟨hlen, ?_⟩
    intro k hk
    have hnew : (heap ++ [(⟨sp, elems⟩ : Buffer)]).get? heap.length = some ⟨sp, elems⟩ := by
      simp
    unfold read
    simp only [hnew, hb, Nat.zero_add, List.get?_eq_getElem?]
    exact hget k hk

theorem get?_leaf_cons (d : DataType) (p : Ptr) (a : AllocatorId) (b : String)
    (r : List String) : (Node.leaf d p a).get? (b :: r) = none := by
  simp [Node.get?, find_child]

theorem get?_empty_cons (b : String) (r : List String) : Node.empty.get? (b :: r) = none := by
  simp [Node.get?, find_child]

/-- The paths of the tree after a leaf has been put at a path that was missing:
the old paths and the prefixes of the new one. -/
theorem get?_modify_isSome (L : Node) (hL : L.children = []) (ds : List String) (n : Node)
    (h : n.get? ds = none) (q : List String) :
    ((n.modify (fun _ => L) ds).get? q).isSome = true ↔
      (n.get? q).isSome = true ∨ q <+: ds := by
  induction ds generalizing n q with
  | nil => simp [Node.get?] at h
  | cons a r ih =>
    cases q with
    | nil => simp [Node.get?]
    | cons b r' =>
      by_cases hab : a = b
      · subst hab
        simp only [Node.modify, Node.get?, children_object, find_child_update_child]
        cases hfc : find_child a n.children with
        | some ch =>
          simp only [Node.get?, hfc] at h
          simp only [Option.getD_some]
          rw [ih ch h r']
          simp [List.prefix_cons_inj]
        | none =>
          simp only [Option.getD_none, Option.isSome_none, Bool.false_eq_true, false_or]
          cases r with
          | nil =>
            simp only [Node.modify]
            cases r' with
            | nil => simp [Node.get?]
            | cons c r'' =>
              simp only [Node.get?, hL, find_child, Option.isSome_none, Bool.false_eq_true,
                false_iff]
              intro hp
              have := List.IsPrefix.length_le hp
              simp at this
          | cons c r0 =>
            rw [ih Node.empty (get?_empty_cons c r0) r']
            simp only [List.prefix_cons_inj]
            constructor
            · rintro (h1 | h1)
              · cases r' with
                | nil => exact List.nil_prefix
                | cons x y => simp [get?_empty_cons] at h1
              · exact h1
            · intro h1; exact Or.inr h1
      · rw [get?_modify_of_head_ne _ _ hab]
        constructor
        · intro h1; exact Or.inl h1
        · rintro (h1 | h1)
          · exact h1
          · exfalso
            obtain ⟨t, ht⟩ := h1
            simp only [List.cons_append, List.cons.injEq] at ht
            exact hab ht.1.symm

/-- A node off the new path is left as it is. -/
theorem get?_modify_off_path (f : Node → Node) (ds : List String) (n : Node)
    (h : n.get? ds = none) (q : List String) (nd : Node) (hq : n.get? q = some nd)
    (hpre : ¬ q <+: ds) : (n.modify f ds).get? q = some nd := by
  induction ds generalizing n q with
  | nil => simp [Node.get?] at h
  | cons a r ih =>
    cases q with
    | nil => exact absurd List.nil_prefix hpre
    | cons b r' =>
      by_cases hab : a = b
      · subst hab
        simp only [Node.modify, Node.get?, children_object, find_child_update_child]
        cases hfc : find_child a n.children with
        | none => simp [Node.get?, hfc] at hq
        | some ch =>
          simp only [Node.get?, hfc] at h hq
          simp only [Option.getD_some]
          exact ih ch h r' hq (fun hp => hpre ((List.prefix_cons_inj a).mpr hp))
      · rw [get?_modify_of_head_ne _ _ hab]
        exact hq



/-- The cache branch on a miss: the mirror leaf is put at the path and a buffer is
appended to memory. -/
theorem mirror_at_miss {id : AllocatorId} {path : String} {p : Ptr} {n : Nat}
    {elems : List Int} {s : State} (hmiss : s.field.has_path path = false)
    (hcopy : copy_elements s.heap p n = some elems) :
    mirror_at T id path p (some n) s =
      (.ok ⟨s.heap.length, 0⟩,
        { field := s.field.modify
            (fun _ => .leaf ⟨T.id, n, 0, T.sizeof⟩ ⟨s.heap.length, 0⟩ id) (path_segments path)
          heap := s.heap ++ [⟨id.space, elems⟩] }) := by
  unfold mirror_at
  simp only [hmiss, Bool.not_false, if_true, create_mirror, hcopy]
  exact mirror_ptr_of_leaf (d := ⟨T.id, n, 0, T.sizeof⟩) (a := id)
    (by simp only [get?_modify_self]) rfl

theorem mirror_at_miss_spec {id : AllocatorId} {path : String} {p : Ptr} {n : Nat}
    {elems : List Int} {s : State} (hmiss : s.field.has_path path = false)
    (hcopy : copy_elements s.heap p n = some elems) :
    ∃ s', mirror_at T id path p (some n) s = (.ok ⟨s.heap.length, 0⟩, s') ∧
      s'.field.get? (path_segments path) =
        some (.leaf ⟨T.id, n, 0, T.sizeof⟩ ⟨s.heap.length, 0⟩ id) ∧
      s'.heap = s.heap ++ [⟨id.space, elems⟩] ∧ elems.length = n ∧
      (∀ k < n, read s'.heap ⟨s.heap.length, 0⟩ k = read s.heap p k ∧
        (read s.heap p k).isSome = true) ∧
      (∀ q, (s'.field.get? q).isSome = true ↔
        (s.field.get? q).isSome = true ∨ q <+: path_segments path) ∧
      (∀ q nd, s.field.get? q = some nd → ¬ q <+: path_segments path →
        s'.field.get? q = some nd) := by
  have hnone : s.field.get? (path_segments path) = none := by
    unfold Node.has_path at hmiss
    cases hg : s.field.get? (path_segments path) with
    | none => rfl
    | some x => simp [hg] at hmiss
  obtain ⟨hlen, hread⟩ := read_new_buffer id.space hcopy
  refine ⟨_, mirror_at_miss hmiss hcopy, ?_, rfl, hlen, hread, ?_, ?_⟩
  · simp only [get?_modify_self]
  · intro q
    exact get?_modify_isSome
      (.leaf ⟨T.id, n, 0, T.sizeof⟩ ⟨s.heap.length, 0⟩ id) rfl _ _ hnone q
  · intro q nd hq hpre
    exact get?_modify_off_path _ _ _ hnone q nd hq hpre

theorem raw_ptr_of_fst {mi : MemoryInterface T} {c : Int} {s : State} {p : Ptr} {leaf : String}
    (hraw : (mi.raw_ptr c s).1 = .ok (p, leaf)) : mi.raw_ptr c s = (.ok (p, leaf), s) := by
  cases hr : mi.raw_ptr c s with
  | mk r s2 =>
    rw [hr] at hraw
    simp only at hraw
    subst hraw
    obtain ⟨hs, -⟩ := raw_ptr_ok hr
    rw [hs]


/-! ## Facts about sequences of requests -/

theorem split_segments_plain (nm : List Char) (h : '/' ∉ nm) : split_segments nm = [nm] := by
  have := split_segments_append nm h []
  simpa [split_segments] using this

theorem split_segments_slash_append (p nm : List Char) (hp : p.getLast? ≠ some '/')
    (hnm : nm ≠ []) (hs : '/' ∉ nm) :
    split_segments (p ++ '/' :: nm) = split_segments p ++ [nm] := by
  induction p with
  | nil =>
    simp only [List.nil_append]
    conv_lhs => rw [split_segments.eq_def]
    cases nm with
    | nil => exact absurd rfl hnm
    | cons c t =>
      simp only [if_true]
      rw [split_segments_plain (c :: t) hs]
      rfl
  | cons c p ih =>
    have hp' : p.getLast? ≠ some '/' := by
      intro h
      apply hp
      cases p with
      | nil => simp at h
      | cons a t => simpa [List.getLast?_cons_cons] using h
    by_cases hc : c = '/'
    · subst hc
      cases p with
      | nil => simp at hp
      | cons a t =>
        rw [List.cons_append]
        conv_lhs => rw [split_segments.eq_def]
        conv_rhs => rw [split_segments.eq_def]
        simp only [if_true, List.cons_append]
        rw [← List.cons_append, ih hp']
    · rw [List.cons_append, split_segments_cons hc, split_segments_cons hc, ih hp']
      cases hsp : split_segments p with
      | nil => exact absurd hsp (split_segments_ne_nil p)
      | cons a t => simp

/-- The path of a child with a plain name walks the base path and then the child. -/
theorem path_segments_child (path name : String) (hp : path.data.getLast? ≠ some '/')
    (hne : name ≠ "") (hs : '/' ∉ name.data) :
    path_segments (path ++ "/" ++ name) = path_segments path ++ [name] := by
  have hd : (path ++ "/" ++ name).data = path.data ++ '/' :: name.data := by
    simp [String.data_append]
  have hnm : name.data ≠ [] := by
    intro h
    apply hne
    cases name with
    | mk d => simp at h; simp [h]
  unfold path_segments
  rw [hd, split_segments_slash_append _ _ hp hnm hs]
  simp

theorem get?_append (n : Node) (a b : List String) :
    n.get? (a ++ b) = (n.get? a).bind (fun m => m.get? b) := by
  induction a generalizing n with
  | nil => simp [Node.get?]
  | cons x a ih =>
    simp only [List.cons_append, Node.get?]
    cases find_child x n.children with
    | none => simp
    | some c => simp [ih]

/-- A rewrite at one path leaves another path of the same length alone. -/
theorem get?_modify_same_length (f : Node → Node) (ds' ds : List String) (n : Node)
    (hlen : ds.length = ds'.length) (hne : ds ≠ ds') :
    (n.modify f ds').get? ds = n.get? ds := by
  induction ds' generalizing n ds with
  | nil =>
    cases ds with
    | nil => exact absurd rfl hne
    | cons b r => simp at hlen
  | cons a r' ih =>
    cases ds with
    | nil => simp at hlen
    | cons b r =>
      by_cases hab : a = b
      · subst hab
        have hr : r ≠ r' := fun h => hne (by rw [h])
        have hl : r.length = r'.length := by simpa using hlen
        simp only [Node.modify, Node.get?, children_object, find_child_update_child]
        rw [ih _ _ hl hr]
        cases hfc : find_child a n.children with
        | some ch => simp
        | none =>
          simp only [Option.getD_none]
          cases r with
          | nil =>
            cases r' with
            | nil => exact absurd rfl hr
            | cons x y => simp at hl
          | cons x y => exact get?_empty_cons x y
      · exact get?_modify_of_head_ne _ _ hab _ _

/-- The constructor looks at the node only through the field at the path. -/
theorem new_congr (T : ElemType) {field field' : Node} (path : String)
    (h : field'.get? (path_segments path) = field.get? (path_segments path)) :
    MemoryInterface.new T field' path = MemoryInterface.new T field path := by
  unfold MemoryInterface.new Node.has_path Node.at_path
  rw [h]

theorem find_child_of_mem {name : String} {nd : Node} {cs : List (String × Node)}
    (h : (name, nd) ∈ cs) : ∃ ch, find_child name cs = some ch := by
  induction cs with
  | nil => simp at h
  | cons hd tl ih =>
    obtain ⟨k, c⟩ := hd
    by_cases hk : k = name
    · exact ⟨c, by simp [find_child, hk]⟩
    · simp only [List.mem_cons, Prod.mk.injEq] at h
      rcases h with ⟨h1, -⟩ | h
      · exact absurd h1.symm hk
      · obtain ⟨ch, hch⟩ := ih h
        exact ⟨ch, by simp [find_child, hk, hch]⟩

theorem child_mem {n : Node} {c : Int} {name : String} {nd : Node}
    (h : n.child c = some (name, nd)) : (name, nd) ∈ n.children := by
  unfold Node.child at h
  by_cases hc : c < 0
  · simp [hc] at h
  · simp only [hc, if_false] at h
    exact List.get?_mem h



theorem component_path_state {mi : MemoryInterface T} {c : Int} {s : State}
    (hp : s.field.has_path mi.m_path = true) : (mi.component_path c s).2 = s := by
  unfold component_path
  simp only [state_fetch_of_has_path hp]
  split
  · rfl
  · split
    · split <;> rfl
    · rfl

/-- The leaf of a component exists, and all component paths are equally long. -/
theorem has_path_component {mi : MemoryInterface T} {c : Int} {s s1 : State} {leaf : String}
    (hp : s.field.has_path mi.m_path = true)
    (hpath : mi.m_path.data.getLast? ≠ some '/')
    (hn : ∀ ch ∈ (s.field.at_path mi.m_path).children, ch.1 ≠ "" ∧ '/' ∉ ch.1.data)
    (h : mi.component_path c s = (.ok leaf, s1)) :
    s.field.has_path leaf = true ∧
    (path_segments leaf).length = (path_segments mi.m_path).length +
      (if (s.field.at_path mi.m_path).number_of_children = 0 then 0 else 1) := by
  obtain ⟨-, -, -, ⟨hl, h0⟩ | ⟨name, nd, hch, hl, hpos⟩⟩ := component_path_ok h
  · rw [hl]; simp [hp, h0]
  · have hmem := child_mem hch
    obtain ⟨hne, hs⟩ := hn _ hmem
    have hsegs := path_segments_child mi.m_path name hpath hne hs
    obtain ⟨ch, hfc⟩ := find_child_of_mem hmem
    constructor
    · unfold Node.has_path
      rw [hl, hsegs, get?_append, at_path_eq_of_has_path hp]
      simp [Node.get?, hfc]
    · rw [hl, hsegs]
      have : (s.field.at_path mi.m_path).number_of_children ≠ 0 := by omega
      simp [this]

theorem raw_ptr_state {mi : MemoryInterface T} {c : Int} {s : State}
    (hp : s.field.has_path mi.m_path = true)
    (hpath : mi.m_path.data.getLast? ≠ some '/')
    (hn : ∀ ch ∈ (s.field.at_path mi.m_path).children, ch.1 ≠ "" ∧ '/' ∉ ch.1.data) :
    (mi.raw_ptr c s).2 = s := by
  unfold raw_ptr
  cases hcp : mi.component_path c s with
  | mk r sA =>
    have hsA : sA = s := by
      have := component_path_state (c := c) hp
      rw [hcp] at this
      exact this
    subst hsA
    cases r with
    | error e => rfl
    | ok leaf =>
      obtain ⟨hpl, -⟩ := has_path_component hp hpath hn hcp
      simp only [state_fetch_of_has_path hpl]
      split <;> rfl

theorem mirror_ptr_state (T : ElemType) (path : String) (s : State) :
    (mirror_ptr T path s).2 = { s with field := s.field.fetch path } := by
  unfold mirror_ptr
  simp only
  split <;> rfl

/-- The cache branch leaves the state alone or puts one leaf at the mirror path,
which was missing, and appends one buffer. -/
theorem mirror_at_state (T : ElemType) (id : AllocatorId) (path : String) (p : Ptr)
    (sz : Option Nat) (s : State) :
    (mirror_at T id path p sz s).2 = s ∨
    (s.field.has_path path = false ∧ p.buf < s.heap.length ∧ ∃ L b,
      (mirror_at T id path p sz s).2 =
        { field := s.field.modify (fun _ => L) (path_segments path), heap := s.heap ++ [b] }) := by
  unfold mirror_at
  by_cases hp : s.field.has_path path = true
  · left
    simp only [hp, Bool.not_true, Bool.false_eq_true, if_false, mirror_ptr_state,
      state_fetch_of_has_path hp]
  · have hp' : s.field.has_path path = false := by simpa using hp
    simp only [hp', Bool.not_false, if_true]
    cases hc : create_mirror T id path p sz s with
    | none => left; rfl
    | some s2 =>
      right
      obtain ⟨n, elems, -, hcopy, hs2⟩ := create_mirror_some hc
      refine ⟨trivial, copy_elements_some_lt hcopy,
        .leaf ⟨T.id, n, 0, T.sizeof⟩ ⟨s.heap.length, 0⟩ id, ⟨id.space, elems⟩, ?_⟩
      simp only [mirror_ptr_state]
      have hp2 : s2.field.has_path path = true := by
        unfold Node.has_path
        rw [hs2]
        simp only [get?_modify_self]
        rfl
      rw [state_fetch_of_has_path hp2, hs2]

/-- What a request can do to the state. -/
theorem request_state (cuda : Bool) {mi : MemoryInterface T} (r : Request) {s : State}
    (hp : s.field.has_path mi.m_path = true)
    (hpath : mi.m_path.data.getLast? ≠ some '/')
    (hn : ∀ ch ∈ (s.field.at_path mi.m_path).children, ch.1 ≠ "" ∧ '/' ∉ ch.1.data) :
    (mi.request cuda r s).2 = s ∨
    ∃ pre leaf L b, (pre = "device_" ∨ pre = "host_") ∧
      (∃ c, mi.component_path c s = (.ok leaf, s)) ∧
      s.field.has_path (pre ++ leaf) = false ∧
      (mi.request cuda r s).2 =
        { field := s.field.modify (fun _ => L) (path_segments (pre ++ leaf))
          heap := s.heap ++ [b] } := by
  have hst := raw_ptr_state (c := r.component) hp hpath hn
  unfold request
  cases hraw : mi.raw_ptr r.component s with
  | mk res sA =>
    rw [hraw] at hst
    simp only at hst
    subst hst
    cases res with
    | error e =>
      left
      by_cases hd : r.device = true
      · simp [hd, device_ptr_const, hraw]
      · simp [hd, host_ptr_const, hraw]
    | ok pl =>
      obtain ⟨p, leaf⟩ := pl
      obtain ⟨-, hcp, -, -, -⟩ := raw_ptr_ok hraw
      by_cases hd : r.device = true
      · simp only [hd, if_true, device_ptr_const_of_raw_ptr cuda hraw]
        by_cases hc : cuda = true
        · simp only [hc, if_true]
          by_cases hg : is_gpu_ptr sA.heap p = true
          · left; simp [hg]
          · simp only [hg, if_false]
            rcases mirror_at_state T conduit_device_allocator_id ("device_" ++ leaf) p
              (mi.size r.component) sA with h | ⟨hmiss, -, L, b, h⟩
            · left; exact h
            · right
              exact ⟨"device_", leaf, L, b, Or.inl rfl, ⟨_, hcp⟩, hmiss, h⟩
        · left; simp [hc]
      · have hd' : r.device = false := by simpa using hd
        simp only [hd', Bool.false_eq_true, if_false, host_ptr_const_of_raw_ptr cuda hraw]
        by_cases hc : cuda = true
        · simp only [hc, if_true]
          by_cases hg : (!(gpu_ptr_attributes sA.heap p).1 ||
              ((gpu_ptr_attributes sA.heap p).1 && (gpu_ptr_attributes sA.heap p).2)) = true
          · left; simp only [hg, if_true]
          · simp only [hg, if_false]
            rcases mirror_at_state T conduit_host_allocator_id ("host_" ++ leaf) p
              (mi.size r.component) sA with h | ⟨hmiss, -, L, b, h⟩
            · left; exact h
            · right
              exact ⟨"host_", leaf, L, b, Or.inr rfl, ⟨_, hcp⟩, hmiss, h⟩
        · left; simp [hc]



/-- A mirror is put below a top-level child other than the one the component paths
start with. -/
theorem get?_modify_mirror (f : Node → Node) (n : Node) (pre leaf other : String)
    (hpre : '/' ∉ pre.data) (hne : pre ≠ "")
    (hh : (split_segments other.data).headD [] = (split_segments leaf.data).headD []) :
    (n.modify f (path_segments (pre ++ leaf))).get? (path_segments other) =
      n.get? (path_segments other) := by
  rw [path_segments_tag pre leaf hpre, path_segments_eq_cons other, hh]
  exact get?_modify_of_head_ne _ _ (prefix_ne_self _ _ hne) _ _

theorem path_segments_tag_length (pre leaf : String) (hpre : '/' ∉ pre.data) :
    (path_segments (pre ++ leaf)).length = (path_segments leaf).length := by
  rw [path_segments_tag pre leaf hpre, path_segments_eq_cons leaf]
  simp

theorem tag_cases {pre : String} (h : pre = "device_" ∨ pre = "host_") :
    '/' ∉ pre.data ∧ pre ≠ "" := by
  rcases h with rfl | rfl
  · exact ⟨device_tag_no_slash, by decide⟩
  · exact ⟨host_tag_no_slash, by decide⟩

/-- After a mirror has been put for some component, every `raw_ptr` is what it was. -/
theorem raw_ptr_after_mirror {mi : MemoryInterface T} {s : State} {pre leaf : String}
    {c : Int} (f : Node → Node) (ext : List Buffer)
    (hpre : '/' ∉ pre.data) (hne : pre ≠ "")
    (hcp : mi.component_path c s = (.ok leaf, s)) (c' : Int) (p : Ptr) (lf : String) :
    mi.raw_ptr c' s = (.ok (p, lf), s) ↔
      mi.raw_ptr c' { field := s.field.modify f (path_segments (pre ++ leaf)),
                      heap := s.heap ++ ext } =
        (.ok (p, lf), { field := s.field.modify f (path_segments (pre ++ leaf)),
                        heap := s.heap ++ ext }) := by
  have hbase : (s.field.modify f (path_segments (pre ++ leaf))).get?
      (path_segments mi.m_path) = s.field.get? (path_segments mi.m_path) :=
    get?_modify_mirror f _ pre leaf mi.m_path hpre hne (component_path_head hcp).symm
  constructor
  · intro h
    obtain ⟨-, hcp', -, -, -⟩ := raw_ptr_ok h
    have hh := (component_path_head hcp').trans (component_path_head hcp).symm
    exact raw_ptr_frame h hbase (get?_modify_mirror f _ pre leaf lf hpre hne hh)
  · intro h
    obtain ⟨-, hcp', -, -, -⟩ := raw_ptr_ok h
    have hh := (component_path_head hcp').trans (component_path_head hcp).symm
    exact raw_ptr_frame h hbase.symm (get?_modify_mirror f _ pre leaf lf hpre hne hh).symm

theorem device_ptr_const_idem {cuda : Bool} {mi : MemoryInterface T} {c : Int}
    {s s1 : State} {q : Ptr} (h : mi.device_ptr_const cuda c s = (.ok q, s1)) :
    mi.device_ptr_const cuda c s1 = (.ok q, s1) := by
  obtain ⟨p, leaf, hraw⟩ := raw_ptr_of_device_ptr_const h
  rw [device_ptr_const_of_raw_ptr cuda hraw] at h
  by_cases hc : cuda = true
  · simp only [hc, if_true] at h
    by_cases hg : is_gpu_ptr s.heap p = true
    · simp only [hg, if_true, Prod.mk.injEq, Except.ok.injEq] at h
      obtain ⟨hq, hs⟩ := h
      subst hq hs
      rw [device_ptr_const_of_raw_ptr cuda hraw]
      simp [hc, hg]
    · simp only [hg, if_false] at h
      obtain ⟨hraw1, hattr, hm1⟩ :=
        mirror_at_stable "device_" device_tag_no_slash (by decide) hraw h
      rw [device_ptr_const_of_raw_ptr cuda hraw1]
      have hg1 : ¬ is_gpu_ptr s1.heap p = true := by
        unfold is_gpu_ptr at hg ⊢; rw [hattr]; exact hg
      simp only [hc, if_true, hg1, if_false]
      exact hm1
  · have hc' : cuda = false := by simpa using hc
    subst hc'
    simp only [Bool.false_eq_true, if_false, Prod.mk.injEq, Except.ok.injEq] at h
    obtain ⟨hq, hs⟩ := h
    subst hq hs
    rw [device_ptr_const_of_raw_ptr false hraw]
    simp

theorem host_ptr_const_idem {cuda : Bool} {mi : MemoryInterface T} {c : Int}
    {s s1 : State} {q : Ptr} (h : mi.host_ptr_const cuda c s = (.ok q, s1)) :
    mi.host_ptr_const cuda c s1 = (.ok q, s1) := by
  obtain ⟨p, leaf, hraw⟩ := raw_ptr_of_host_ptr_const h
  rw [host_ptr_const_of_raw_ptr cuda hraw] at h
  by_cases hc : cuda = true
  · simp only [hc, if_true] at h
    by_cases hg : (!(gpu_ptr_attributes s.heap p).1 ||
          ((gpu_ptr_attributes s.heap p).1 && (gpu_ptr_attributes s.heap p).2)) = true
    · simp only [hg, if_true, Prod.mk.injEq, Except.ok.injEq] at h
      obtain ⟨hq, hs⟩ := h
      subst hq hs
      rw [host_ptr_const_of_raw_ptr cuda hraw]
      simp only [hc, if_true, hg]
    · simp only [hg, if_false] at h
      obtain ⟨hraw1, hattr, hm1⟩ :=
        mirror_at_stable "host_" host_tag_no_slash (by decide) hraw h
      rw [host_ptr_const_of_raw_ptr cuda hraw1]
      rw [hattr]
      simp only [hc, if_true, hg, if_false]
      exact hm1
  · have hc' : cuda = false := by simpa using hc
    subst hc'
    simp only [Bool.false_eq_true, if_false, Prod.mk.injEq, Except.ok.injEq] at h
    obtain ⟨hq, hs⟩ := h
    subst hq hs
    rw [host_ptr_const_of_raw_ptr false hraw]
    simp

theorem request_idem {cuda : Bool} {mi : MemoryInterface T} {r : Request}
    {s s1 : State} {q : Ptr} (h : mi.request cuda r s = (.ok q, s1)) :
    mi.request cuda r s1 = (.ok q, s1) := by
  unfold request at h ⊢
  by_cases hd : r.device = true
  · simp only [hd, if_true] at h ⊢
    exact device_ptr_const_idem h
  · have hd' : r.device = false := by simpa using hd
    simp only [hd', Bool.false_eq_true, if_false] at h ⊢
    exact host_ptr_const_idem h



/-- A mirror that is present stays where it is when a mirror is put at another
path of the same length. -/
theorem mirror_at_after_mirror {s : State} {other path : String} (L : Node) (b : Buffer)
    {id : AllocatorId} {p q : Ptr} {sz : Option Nat}
    (hlen : (path_segments path).length = (path_segments other).length)
    (hmiss : s.field.has_path other = false)
    (h : mirror_at T id path p sz s = (.ok q, s)) :
    mirror_at T id path p sz
        { field := s.field.modify (fun _ => L) (path_segments other), heap := s.heap ++ [b] } =
      (.ok q, { field := s.field.modify (fun _ => L) (path_segments other),
                heap := s.heap ++ [b] }) := by
  obtain ⟨⟨d, a, hg, hid⟩, -⟩ := mirror_at_ok h
  have hne : path_segments path ≠ path_segments other := by
    intro heq
    unfold Node.has_path at hmiss
    rw [← heq, hg] at hmiss
    simp at hmiss
  apply mirror_at_hit (d := d) (a := a) _ hid
  show (s.field.modify (fun _ => L) (path_segments other)).get? (path_segments path) = _
  rw [get?_modify_same_length _ _ _ _ hlen hne]
  exact hg

/-- A request that returned a pointer and left the state alone does the same after
a mirror has been put for any component. -/
theorem request_after_mirror {cuda : Bool} {mi : MemoryInterface T} {s : State}
    {pre leaf : String} {c : Int} (L : Node) (b : Buffer)
    (htag : pre = "device_" ∨ pre = "host_")
    (hp : s.field.has_path mi.m_path = true)
    (hpath : mi.m_path.data.getLast? ≠ some '/')
    (hn : ∀ ch ∈ (s.field.at_path mi.m_path).children, ch.1 ≠ "" ∧ '/' ∉ ch.1.data)
    (hlive : ∀ c p lf, (mi.raw_ptr c s).1 = .ok (p, lf) → p.buf < s.heap.length)
    (hcp : mi.component_path c s = (.ok leaf, s))
    (hmiss : s.field.has_path (pre ++ leaf) = false)
    (r : Request) (q : Ptr) (h : mi.request cuda r s = (.ok q, s)) :
    mi.request cuda r
        { field := s.field.modify (fun _ => L) (path_segments (pre ++ leaf)),
          heap := s.heap ++ [b] } =
      (.ok q, { field := s.field.modify (fun _ => L) (path_segments (pre ++ leaf)),
                heap := s.heap ++ [b] }) := by
  obtain ⟨hpre, hne⟩ := tag_cases htag
  have hlen : ∀ (tag lf : String) (c' : Int), '/' ∉ tag.data →
      mi.component_path c' s = (.ok lf, s) →
      (path_segments (tag ++ lf)).length = (path_segments (pre ++ leaf)).length := by
    intro tag lf c' htg hcp'
    rw [path_segments_tag_length _ _ htg, path_segments_tag_length _ _ hpre,
      (has_path_component hp hpath hn hcp').2, (has_path_component hp hpath hn hcp).2]
  unfold request at h ⊢
  by_cases hd : r.device = true
  · simp only [hd, if_true] at h ⊢
    obtain ⟨p, lf, hraw⟩ := raw_ptr_of_device_ptr_const h
    obtain ⟨-, hcp', -, -, -⟩ := raw_ptr_ok hraw
    have hraw2 := (raw_ptr_after_mirror (fun _ => L) [b] hpre hne hcp r.component p lf).mp hraw
    have hlt : p.buf < s.heap.length := hlive r.component p lf (by rw [hraw])
    rw [device_ptr_const_of_raw_ptr cuda hraw] at h
    rw [device_ptr_const_of_raw_ptr cuda hraw2]
    simp only [is_gpu_ptr, gpu_ptr_attributes_append hlt]
    simp only [is_gpu_ptr] at h
    by_cases hc : cuda = true
    · simp only [hc, if_true] at h ⊢
      by_cases hg : (gpu_ptr_attributes s.heap p).1 = true
      · simp only [hg, if_true, Prod.mk.injEq, Except.ok.injEq] at h ⊢
        exact ⟨h.1, trivial⟩
      · simp only [hg, if_false] at h ⊢
        exact mirror_at_after_mirror L b (hlen _ _ _ device_tag_no_slash hcp') hmiss h
    · have hc' : cuda = false := by simpa using hc
      subst hc'
      simp only [Bool.false_eq_true, if_false, Prod.mk.injEq, Except.ok.injEq] at h ⊢
      exact ⟨h.1, trivial⟩
  · have hd' : r.device = false := by simpa using hd
    simp only [hd', Bool.false_eq_true, if_false] at h ⊢
    obtain ⟨p, lf, hraw⟩ := raw_ptr_of_host_ptr_const h
    obtain ⟨-, hcp', -, -, -⟩ := raw_ptr_ok hraw
    have hraw2 := (raw_ptr_after_mirror (fun _ => L) [b] hpre hne hcp r.component p lf).mp hraw
    have hlt : p.buf < s.heap.length := hlive r.component p lf (by rw [hraw])
    rw [host_ptr_const_of_raw_ptr cuda hraw] at h
    rw [host_ptr_const_of_raw_ptr cuda hraw2]
    simp only [gpu_ptr_attributes_append hlt]
    by_cases hc : cuda = true
    · simp only [hc, if_true] at h ⊢
      by_cases hg : (!(gpu_ptr_attributes s.heap p).1 ||
            ((gpu_ptr_attributes s.heap p).1 && (gpu_ptr_attributes s.heap p).2)) = true
      · simp only [hg, if_true, Prod.mk.injEq, Except.ok.injEq] at h ⊢
        exact ⟨h.1, trivial⟩
      · simp only [hg, if_false] at h ⊢
        exact mirror_at_after_mirror L b (hlen _ _ _ host_tag_no_slash hcp') hmiss h
    · have hc' : cuda = false := by simpa using hc
      subst hc'
      simp only [Bool.false_eq_true, if_false, Prod.mk.injEq, Except.ok.injEq] at h ⊢
      exact ⟨h.1, trivial⟩

/-- One request keeps the interface usable and keeps every pointer that was
returned before. -/
theorem request_keeps (cuda : Bool) {mi : MemoryInterface T} {s : State}
    (hnew : MemoryInterface.new T s.field mi.m_path = .ok mi)
    (hpath : mi.m_path.data.getLast? ≠ some '/')
    (hn : ∀ ch ∈ (s.field.at_path mi.m_path).children, ch.1 ≠ "" ∧ '/' ∉ ch.1.data)
    (hlive : ∀ c p lf, (mi.raw_ptr c s).1 = .ok (p, lf) → p.buf < s.heap.length)
    (r' : Request) :
    MemoryInterface.new T (mi.request cuda r' s).2.field mi.m_path = .ok mi ∧
    (∀ ch ∈ ((mi.request cuda r' s).2.field.at_path mi.m_path).children,
      ch.1 ≠ "" ∧ '/' ∉ ch.1.data) ∧
    (∀ c p lf, (mi.raw_ptr c (mi.request cuda r' s).2).1 = .ok (p, lf) →
      p.buf < (mi.request cuda r' s).2.heap.length) ∧
    (∀ r q, mi.request cuda r s = (.ok q, s) →
      mi.request cuda r (mi.request cuda r' s).2 = (.ok q, (mi.request cuda r' s).2)) := by
  have hp : s.field.has_path mi.m_path = true := (new_ok hnew).1
  rcases request_state cuda r' hp hpath hn with h | ⟨pre, leaf, L, b, htag, ⟨c, hcp⟩, hmiss, h⟩
  · rw [h]
    exact ⟨hnew, hn, hlive, fun r q hr => hr⟩
  · rw [h]
    obtain ⟨hpre, hne⟩ := tag_cases htag
    have hbase : (s.field.modify (fun _ => L) (path_segments (pre ++ leaf))).get?
        (path_segments mi.m_path) = s.field.get? (path_segments mi.m_path) :=
      get?_modify_mirror _ _ pre leaf mi.m_path hpre hne (component_path_head hcp).symm
    refine ⟨?_, ?_, ?_, ?_⟩
    · rw [← hnew]
      exact new_congr T mi.m_path hbase
    · have : (s.field.modify (fun _ => L) (path_segments (pre ++ leaf))).at_path mi.m_path =
          s.field.at_path mi.m_path := by
        unfold Node.at_path; rw [hbase]
      simp only [this]
      exact hn
    · intro c' p lf hr
      have hr2 := raw_ptr_of_fst hr
      have hr1 := (raw_ptr_after_mirror (fun _ => L) [b] hpre hne hcp c' p lf).mpr hr2
      have := hlive c' p lf (by rw [hr1])
      simp only [List.length_append, List.length_singleton]
      omega
    · intro r q hr
      exact request_after_mirror L b htag hp hpath hn hlive hcp hmiss r q hr

/-- A sequence of requests keeps the interface usable and keeps every pointer that
was returned before. -/
theorem run_keeps (cuda : Bool) {mi : MemoryInterface T} (rs : List Request) {s : State}
    (hnew : MemoryInterface.new T s.field mi.m_path = .ok mi)
    (hpath : mi.m_path.data.getLast? ≠ some '/')
    (hn : ∀ ch ∈ (s.field.at_path mi.m_path).children, ch.1 ≠ "" ∧ '/' ∉ ch.1.data)
    (hlive : ∀ c p lf, (mi.raw_ptr c s).1 = .ok (p, lf) → p.buf < s.heap.length) :
    MemoryInterface.new T (mi.run cuda rs s).field mi.m_path = .ok mi ∧
    (∀ ch ∈ ((mi.run cuda rs s).field.at_path mi.m_path).children,
      ch.1 ≠ "" ∧ '/' ∉ ch.1.data) ∧
    (∀ c p lf, (mi.raw_ptr c (mi.run cuda rs s)).1 = .ok (p, lf) →
      p.buf < (mi.run cuda rs s).heap.length) ∧
    (∀ r q, mi.request cuda r s = (.ok q, s) →
      mi.request cuda r (mi.run cuda rs s) = (.ok q, mi.run cuda rs s)) := by
  induction rs generalizing s with
  | nil => exact ⟨hnew, hn, hlive, fun r q hr => hr⟩
  | cons r' rs ih =>
    obtain ⟨h1, h2, h3, h4⟩ := request_keeps cuda hnew hpath hn hlive r'
    obtain ⟨k1, k2, k3, k4⟩ := ih h1 h2 h3
    exact ⟨k1, k2, k3, fun r q hr => k4 r q (h4 r q hr)⟩



/-- A state with the same base node gives the same component paths. -/
theorem component_path_frame {mi : MemoryInterface T} {c : Int} {s s' : State} {lf : String}
    (h : mi.component_path c s = (.ok lf, s))
    (hp : s.field.has_path mi.m_path = true)
    (hm : s'.field.get? (path_segments mi.m_path) = s.field.get? (path_segments mi.m_path)) :
    mi.component_path c s' = (.ok lf, s') := by
  have hp' : s'.field.has_path mi.m_path = true := by
    unfold Node.has_path at hp ⊢; rw [hm]; exact hp
  have hatm : s'.field.at_path mi.m_path = s.field.at_path mi.m_path := by
    unfold Node.at_path; rw [hm]
  have h1 := h
  unfold component_path at h1 ⊢
  by_cases hr : c < 0 ∨ c ≥ mi.m_components
  · simp [hr] at h1
  · simp only [hr, if_false, at_path_fetch, state_fetch_of_has_path hp] at h1
    simp only [hr, if_false, at_path_fetch, state_fetch_of_has_path hp', hatm]
    by_cases hc : (s.field.at_path mi.m_path).number_of_children > 0
    · simp only [hc, if_true] at h1 ⊢
      cases hch : (s.field.at_path mi.m_path).child c with
      | none => simp [hch] at h1
      | some nc =>
        simp only [hch, Prod.mk.injEq, Except.ok.injEq] at h1 ⊢
        exact ⟨h1.1, trivial⟩
    · simp only [hc, if_false, Prod.mk.injEq, Except.ok.injEq] at h1 ⊢
      exact ⟨h1.1, trivial⟩

/-- One request leaves every node that sits at a mirror path as it is. -/
theorem request_keeps_mirrors (cuda : Bool) {mi : MemoryInterface T} {s : State}
    (hp : s.field.has_path mi.m_path = true)
    (hpath : mi.m_path.data.getLast? ≠ some '/')
    (hn : ∀ ch ∈ (s.field.at_path mi.m_path).children, ch.1 ≠ "" ∧ '/' ∉ ch.1.data)
    (r' : Request) (c : Int) (lf tag : String) (nd : Node)
    (htag : tag = "device_" ∨ tag = "host_")
    (hcp : mi.component_path c s = (.ok lf, s))
    (hg : s.field.get? (path_segments (tag ++ lf)) = some nd) :
    mi.component_path c (mi.request cuda r' s).2 = (.ok lf, (mi.request cuda r' s).2) ∧
    (mi.request cuda r' s).2.field.get? (path_segments (tag ++ lf)) = some nd := by
  rcases request_state cuda r' hp hpath hn with
    h | ⟨pre, leaf, L, b, hpre, ⟨c', hcp'⟩, hmiss, h⟩
  · rw [h]
    exact ⟨hcp, hg⟩
  · rw [h]
    obtain ⟨hpre1, hpre2⟩ := tag_cases hpre
    obtain ⟨htag1, -⟩ := tag_cases htag
    have hbase : (s.field.modify (fun _ => L) (path_segments (pre ++ leaf))).get?
        (path_segments mi.m_path) = s.field.get? (path_segments mi.m_path) :=
      get?_modify_mirror _ _ pre leaf mi.m_path hpre1 hpre2 (component_path_head hcp').symm
    refine ⟨component_path_frame hcp hp hbase, ?_⟩
    have hlen : (path_segments (tag ++ lf)).length = (path_segments (pre ++ leaf)).length := by
      rw [path_segments_tag_length _ _ htag1, path_segments_tag_length _ _ hpre1,
        (has_path_component hp hpath hn hcp).2, (has_path_component hp hpath hn hcp').2]
    have hne : path_segments (tag ++ lf) ≠ path_segments (pre ++ leaf) := by
      intro heq
      unfold Node.has_path at hmiss
      rw [← heq, hg] at hmiss
      simp at hmiss
    show (s.field.modify (fun _ => L) (path_segments (pre ++ leaf))).get?
      (path_segments (tag ++ lf)) = some nd
    rw [get?_modify_same_length _ _ _ _ hlen hne]
    exact hg

/-- A sequence of requests leaves every node that sits at a mirror path as it is. -/
theorem run_keeps_mirrors (cuda : Bool) {mi : MemoryInterface T} (rs : List Request) {s : State}
    (hnew : MemoryInterface.new T s.field mi.m_path = .ok mi)
    (hpath : mi.m_path.data.getLast? ≠ some '/')
    (hn : ∀ ch ∈ (s.field.at_path mi.m_path).children, ch.1 ≠ "" ∧ '/' ∉ ch.1.data)
    (hlive : ∀ c p lf, (mi.raw_ptr c s).1 = .ok (p, lf) → p.buf < s.heap.length)
    (c : Int) (lf tag : String) (nd : Node)
    (htag : tag = "device_" ∨ tag = "host_")
    (hcp : mi.component_path c s = (.ok lf, s))
    (hg : s.field.get? (path_segments (tag ++ lf)) = some nd) :
    (mi.run cuda rs s).field.get? (path_segments (tag ++ lf)) = some nd := by
  induction rs generalizing s with
  | nil => exact hg
  | cons r' rs ih =>
    obtain ⟨h1, h2, h3, -⟩ := request_keeps cuda hnew hpath hn hlive r'
    obtain ⟨k1, k2⟩ := request_keeps_mirrors cuda (new_ok hnew).1 hpath hn r' c lf tag nd
      htag hcp hg
    exact ih h1 h2 h3 k1 k2


theorem is_conduit_type_true {T : ElemType} {n : Node} (h : is_conduit_type T n = true) :
    ∃ d p a, n = .leaf d p a ∧ d.id = T.id := by
  cases n with
  | empty => cases T <;> simp [is_conduit_type, Node.dtype, ElemType.id] at h
  | object cs => cases T <;> simp [is_conduit_type, Node.dtype, ElemType.id] at h
  | leaf d p a => exact ⟨d, p, a, rfl, by simpa [is_conduit_type, Node.dtype] using h⟩

theorem mem_of_find_child {name : String} {ch : Node} {cs : List (String × Node)}
    (h : find_child name cs = some ch) : (name, ch) ∈ cs := by
  induction cs with
  | nil => simp [find_child] at h
  | cons hd tl ih =>
    obtain ⟨k, c⟩ := hd
    by_cases hk : k = name
    · simp only [find_child, hk, if_true, Option.some.injEq] at h
      simp [hk, h]
    · simp only [find_child, hk, if_false] at h
      exact List.mem_cons_of_mem _ (ih h)

/-- The sizes recorded by the constructor: one per component. -/
theorem new_sizes_length {T : ElemType} {field : Node} {path : String} {mi : MemoryInterface T}
    (h : MemoryInterface.new T field path = .ok mi) :
    (mi.m_sizes.length : Int) = mi.m_components := by
  obtain ⟨-, -, hmc, hms, -⟩ := new_ok h
  rw [hmc, hms]
  by_cases h0 : (field.at_path path).number_of_children = 0
  · simp [h0]
  · simp only [h0, if_false, false_or, List.length_map]
    by_cases h1 : (field.at_path path).number_of_children = 1
    · simp only [h1, if_true]
      unfold Node.number_of_children at h1
      simp [h1]
    · simp only [h1, if_false]
      rfl

/-- On an interface built over the current node every valid component has a path, and
a field with children has a child for it. -/
theorem component_path_valid {mi : MemoryInterface T} {s : State}
    (hnew : MemoryInterface.new T s.field mi.m_path = .ok mi) {c : Int}
    (h0 : 0 ≤ c) (h1 : c < mi.m_components) :
    ∃ leaf, mi.component_path c s = (.ok leaf, s) := by
  obtain ⟨hp, -, hmc, -, -⟩ := new_ok hnew
  have hst : ({ s with field := s.field.fetch mi.m_path } : State) = s :=
    state_fetch_of_has_path hp
  have hr : ¬ (c < 0 ∨ c ≥ mi.m_components) := by omega
  unfold component_path
  simp only [hr, if_false, at_path_fetch, hst]
  by_cases hc : (s.field.at_path mi.m_path).number_of_children > 0
  · have hlt : c < ((s.field.at_path mi.m_path).number_of_children : Int) := by
      rw [hmc] at h1
      split_ifs at h1 with h3
      · omega
      · exact h1
    obtain ⟨name, nd, hch⟩ := child_lt h0 hlt
    simp only [hc, if_true, hch]
    exact ⟨_, rfl⟩
  · simp only [hc, if_false]
    exact ⟨_, rfl⟩

/-- On an interface built over the current node, whose base path does not end in '/'
and whose children have plain names, every valid component has a stored pointer. -/
theorem raw_ptr_total {mi : MemoryInterface T} {s : State}
    (hnew : MemoryInterface.new T s.field mi.m_path = .ok mi)
    (hpath : mi.m_path.data.getLast? ≠ some '/')
    (hn : ∀ ch ∈ (s.field.at_path mi.m_path).children, ch.1 ≠ "" ∧ '/' ∉ ch.1.data)
    {c : Int} (h0 : 0 ≤ c) (h1 : c < mi.m_components) :
    ∃ p leaf, mi.raw_ptr c s = (.ok (p, leaf), s) := by
  obtain ⟨hp, -, -, -, htypes⟩ := new_ok hnew
  obtain ⟨leaf, hcp⟩ := component_path_valid hnew h0 h1
  obtain ⟨hpl, -⟩ := has_path_component hp hpath hn hcp
  have hleaf : ∃ d p a, s.field.at_path leaf = .leaf d p a ∧ d.id = T.id := by
    obtain ⟨-, -, -, ⟨hl, hz⟩ | ⟨name, nd, hch, hl, hpos⟩⟩ := component_path_ok hcp
    · rw [hl]
      simp only [hz, if_true] at htypes
      exact is_conduit_type_true htypes
    · have hnz : (s.field.at_path mi.m_path).number_of_children ≠ 0 := by omega
      simp only [hnz, if_false] at htypes
      have hmem := child_mem hch
      obtain ⟨hne, hs⟩ := hn _ hmem
      obtain ⟨ch, hfc⟩ := find_child_of_mem hmem
      have hat : s.field.at_path leaf = ch := by
        unfold Node.at_path
        rw [hl, path_segments_child mi.m_path name hpath hne hs, get?_append,
          at_path_eq_of_has_path hp]
        simp [Node.get?, hfc]
      rw [hat]
      exact is_conduit_type_true (htypes _ (mem_of_find_child hfc))
  obtain ⟨d, p, a, hnode, hid⟩ := hleaf
  refine ⟨p, leaf, ?_⟩
  unfold raw_ptr
  simp only [hcp, at_path_fetch, state_fetch_of_has_path hpl, hnode, conduit_ptr, hid, if_true]

/-- The errors of `raw_ptr`. -/
theorem raw_ptr_error {mi : MemoryInterface T} {c : Int} {s : State} {e : Error}
    (h : (mi.raw_ptr c s).1 = .error e) : e = .invalid_component ∨ e = .conduit := by
  unfold raw_ptr component_path at h
  simp only at h
  split at h
  · rename_i e' s1 heq
    split at heq
    · simp only [Prod.mk.injEq, Except.error.injEq] at heq
      simp only [Except.error.injEq] at h
      left; rw [← h, ← heq.1]
    · split at heq
      · split at heq
        · simp at heq
        · simp only [Prod.mk.injEq, Except.error.injEq] at heq
          simp only [Except.error.injEq] at h
          right; rw [← h, ← heq.1]
      · simp at heq
  · split at h
    · simp at h
    · simp only [Except.error.injEq] at h
      right; exact h.symm

theorem constructor_loop_fst_false (T : ElemType) (cs : List (String × Node)) :
    (constructor_loop T cs).1 = false ↔ ∃ c ∈ cs, c.2.dtype.id ≠ T.id := by
  rw [← Bool.not_eq_true, constructor_loop_fst]
  simp [is_conduit_type]

theorem resolve_loop_lt {name : String} {cs : List (String × Node)} {i k : Nat}
    (h : resolve_loop name cs i = some k) : i ≤ k ∧ k < i + cs.length := by
  obtain ⟨j, hj, ⟨c, hc, -⟩, -⟩ := (resolve_loop_some name cs i k).mp h
  have := (List.get?_eq_some.mp hc).1
  omega

/-- The result of a name resolution is a valid component of the interface built over
the current node. -/
theorem resolve_component_lt {mi : MemoryInterface T} {s s' : State}
    (hnew : MemoryInterface.new T s.field mi.m_path = .ok mi) {name : String} {k : Int}
    (h : mi.resolve_component name s = (.ok k, s')) : 0 ≤ k ∧ k < mi.m_components := by
  obtain ⟨-, -, hmc, -, -⟩ := new_ok hnew
  unfold resolve_component at h
  by_cases hs : mi.m_components = 1 ∧ name = ""
  · simp only [hs, and_self, if_true, Prod.mk.injEq, Except.ok.injEq] at h
    rw [← h.1, hs.1]
    omega
  · simp only [hs, if_false, at_path_fetch] at h
    cases hl : resolve_loop name (s.field.at_path mi.m_path).children 0 with
    | none => simp [hl] at h
    | some i =>
      simp only [hl, Prod.mk.injEq, Except.ok.injEq] at h
      obtain ⟨-, hlt⟩ := resolve_loop_lt hl
      have hlt' : i < (s.field.at_path mi.m_path).number_of_children := by
        unfold Node.number_of_children; omega
      rw [← h.1, hmc]
      split_ifs with h3
      · omega
      · omega


theorem mirror_ptr_error {path : String} {s : State} {e : Error}
    (h : (mirror_ptr T path s).1 = .error e) : e = .conduit := by
  unfold mirror_ptr at h
  simp only at h
  split at h
  · simp at h
  · simp only [Except.error.injEq] at h
    exact h.symm

theorem mirror_at_error {id : AllocatorId} {path : String} {p : Ptr} {sz : Option Nat}
    {s : State} {e : Error} (h : (mirror_at T id path p sz s).1 = .error e) :
    e = .conduit ∨ e = .fault := by
  unfold mirror_at at h
  split at h
  · split at h
    · exact Or.inl (mirror_ptr_error h)
    · simp only [Except.error.injEq] at h
      exact Or.inr h.symm
  · exact Or.inl (mirror_ptr_error h)

/-- The errors of `device_ptr_const`. -/
theorem device_ptr_const_error {cuda : Bool} {mi : MemoryInterface T} {c : Int} {s : State}
    {e : Error} (h : (mi.device_ptr_const cuda c s).1 = .error e) :
    e = .invalid_component ∨ e = .conduit ∨ e = .fault := by
  cases hr : mi.raw_ptr c s with
  | mk r s1 =>
    cases r with
    | error e' =>
      have he : (mi.raw_ptr c s).1 = .error e' := by rw [hr]
      have : (mi.device_ptr_const cuda c s).1 = .error e' := by
        unfold device_ptr_const; rw [hr]
      rw [this] at h
      injection h with h
      subst h
      rcases raw_ptr_error he with h1 | h1
      · exact Or.inl h1
      · exact Or.inr (Or.inl h1)
    | ok pl =>
      obtain ⟨p, leaf⟩ := pl
      rw [device_ptr_const_of_raw_ptr cuda hr] at h
      split at h
      · split at h
        · simp at h
        · exact Or.inr (mirror_at_error h)
      · simp at h

/-- The errors of `host_ptr_const`. -/
theorem host_ptr_const_error {cuda : Bool} {mi : MemoryInterface T} {c : Int} {s : State}
    {e : Error} (h : (mi.host_ptr_const cuda c s).1 = .error e) :
    e = .invalid_component ∨ e = .conduit ∨ e = .fault := by
  cases hr : mi.raw_ptr c s with
  | mk r s1 =>
    cases r with
    | error e' =>
      have he : (mi.raw_ptr c s).1 = .error e' := by rw [hr]
      have : (mi.host_ptr_const cuda c s).1 = .error e' := by
        unfold host_ptr_const; rw [hr]
      rw [this] at h
      injection h with h
      subst h
      rcases raw_ptr_error he with h1 | h1
      · exact Or.inl h1
      · exact Or.inr (Or.inl h1)
    | ok pl =>
      obtain ⟨p, leaf⟩ := pl
      rw [host_ptr_const_of_raw_ptr cuda hr] at h
      split at h
      · split at h
        · simp at h
        · exact Or.inr (mirror_at_error h)
      · simp at h

theorem component_path_error {mi : MemoryInterface T} {c : Int} {s : State} {e : Error}
    (h : (mi.component_path c s).1 = .error e) : e = .invalid_component ∨ e = .conduit := by
  unfold component_path at h
  simp only at h
  split at h
  · simp only [Except.error.injEq] at h
    exact Or.inl h.symm
  · split at h
    · split at h
      · simp at h
      · simp only [Except.error.injEq] at h
        exact Or.inr h.symm
    · simp at h

theorem resolve_component_error {mi : MemoryInterface T} {name : String} {s : State}
    {e : Error} (h : (mi.resolve_component name s).1 = .error e) :
    e = .no_component_named := by
  unfold resolve_component at h
  simp only at h
  split at h
  · simp at h
  · split at h
    · simp at h
    · simp only [Except.error.injEq] at h
      exact h.symm

/-- The state in which `resolve_component` leaves the tree. -/
theorem resolve_component_state {mi : MemoryInterface T} {name : String} {s : State}
    (hp : s.field.has_path mi.m_path = true) : (mi.resolve_component name s).2 = s := by
  unfold resolve_component
  simp only [state_fetch_of_has_path hp]
  split
  · rfl
  · split <;> rfl

/-- The errors of `accessor` and where each comes from. -/
theorem accessor_error {cuda : Bool} {mi : MemoryInterface T} {location comp : String}
    {s : State} {e : Error} (h : (mi.accessor cuda location comp s).1 = .error e) :
    (e = .invalid_location ∧ location ≠ "device" ∧ location ≠ "host") ∨
    (e = .ambiguous_component ∧ comp = "" ∧ mi.m_components ≠ 1) ∨
    (e = .no_component_named ∧ comp ≠ "") ∨
    e = .invalid_component ∨ e = .conduit ∨ e = .fault := by
  unfold accessor at h
  dsimp only at h
  by_cases hloc : location ≠ "device" ∧ location ≠ "host"
  · rw [if_pos hloc] at h
    simp only [Except.error.injEq] at h
    exact Or.inl ⟨h.symm, hloc⟩
  · rw [if_neg hloc] at h
    by_cases hc : comp = ""
    · by_cases hm : mi.m_components ≠ 1
      · rw [if_pos hc, if_pos hm] at h
        simp only [Except.error.injEq] at h
        exact Or.inr (Or.inl ⟨h.symm, hc, hm⟩)
      · rw [if_pos hc, if_neg hm] at h
        dsimp only at h
        split at h
        · rename_i e' s2 hcp
          simp only [Except.error.injEq] at h
          subst h
          have : (mi.component_path 0 { s with field := s.field.fetch mi.m_path }).1 =
              .error e' := by rw [hcp]
          rcases component_path_error this with h1 | h1
          · exact Or.inr (Or.inr (Or.inr (Or.inl h1)))
          · exact Or.inr (Or.inr (Or.inr (Or.inr (Or.inl h1))))
        · rename_i leaf s2 hcp
          split at h
          · rename_i e' s3 hp
            simp only [Except.error.injEq] at h
            subst h
            by_cases hd : location = "device"
            · simp only [hd, if_true] at hp
              have : (mi.device_ptr_const cuda 0 s2).1 = .error e' := by rw [hp]
              exact Or.inr (Or.inr (Or.inr (device_ptr_const_error this)))
            · simp only [hd, if_false] at hp
              have : (mi.host_ptr_const cuda 0 s2).1 = .error e' := by rw [hp]
              exact Or.inr (Or.inr (Or.inr (host_ptr_const_error this)))
          · simp at h
    · rw [if_neg hc] at h
      split at h
      · rename_i e' s1 hres
        simp only [Except.error.injEq] at h
        subst h
        split at hres
        · simp at hres
        · rename_i e'' s1' hrc
          simp only [Prod.mk.injEq, Except.error.injEq] at hres
          have : (mi.resolve_component comp { s with field := s.field.fetch mi.m_path }).1 =
              .error e'' := by rw [hrc]
          have := resolve_component_error this
          exact Or.inr (Or.inr (Or.inl ⟨by rw [← hres.1, this], hc⟩))
      · rename_i u s1 hres
        split at h
        · rename_i e' s2 hcp
          simp only [Except.error.injEq] at h
          subst h
          have : (mi.component_path 0 s1).1 = .error e' := by rw [hcp]
          rcases component_path_error this with h1 | h1
          · exact Or.inr (Or.inr (Or.inr (Or.inl h1)))
          · exact Or.inr (Or.inr (Or.inr (Or.inr (Or.inl h1))))
        · rename_i leaf s2 hcp
          split at h
          · rename_i e' s3 hp
            simp only [Except.error.injEq] at h
            subst h
            by_cases hd : location = "device"
            · simp only [hd, if_true] at hp
              have : (mi.device_ptr_const cuda 0 s2).1 = .error e' := by rw [hp]
              exact Or.inr (Or.inr (Or.inr (device_ptr_const_error this)))
            · simp only [hd, if_false] at hp
              have : (mi.host_ptr_const cuda 0 s2).1 = .error e' := by rw [hp]
              exact Or.inr (Or.inr (Or.inr (host_ptr_const_error this)))
          · simp at h

/-- After `device_ptr_const` has returned, the component's stored pointer and path are
what they were. -/
theorem device_ptr_const_raw {cuda : Bool} {mi : MemoryInterface T} {c : Int}
    {s s1 : State} {q : Ptr} (h : mi.device_ptr_const cuda c s = (.ok q, s1)) :
    ∃ p leaf, mi.raw_ptr c s = (.ok (p, leaf), s) ∧ mi.raw_ptr c s1 = (.ok (p, leaf), s1) := by
  obtain ⟨p, leaf, hraw⟩ := raw_ptr_of_device_ptr_const h
  refine ⟨p, leaf, hraw, ?_⟩
  rw [device_ptr_const_of_raw_ptr cuda hraw] at h
  split at h
  · split at h
    · simp only [Prod.mk.injEq, Except.ok.injEq] at h
      rw [← h.2]; exact hraw
    · exact (mirror_at_stable "device_" device_tag_no_slash (by decide) hraw h).1
  · simp only [Prod.mk.injEq, Except.ok.injEq] at h
    rw [← h.2]; exact hraw

/-- After `host_ptr_const` has returned, the component's stored pointer and path are
what they were. -/
theorem host_ptr_const_raw {cuda : Bool} {mi : MemoryInterface T} {c : Int}
    {s s1 : State} {q : Ptr} (h : mi.host_ptr_const cuda c s = (.ok q, s1)) :
    ∃ p leaf, mi.raw_ptr c s = (.ok (p, leaf), s) ∧ mi.raw_ptr c s1 = (.ok (p, leaf), s1) := by
  obtain ⟨p, leaf, hraw⟩ := raw_ptr_of_host_ptr_const h
  refine ⟨p, leaf, hraw, ?_⟩
  rw [host_ptr_const_of_raw_ptr cuda hraw] at h
  split at h
  · split at h
    · simp only [Prod.mk.injEq, Except.ok.injEq] at h
      rw [← h.2]; exact hraw
    · exact (mirror_at_stable "host_" host_tag_no_slash (by decide) hraw h).1
  · simp only [Prod.mk.injEq, Except.ok.injEq] at h
    rw [← h.2]; exact hraw

/-- A request leaves the base node of the interface as it is. -/
theorem request_base (cuda : Bool) {mi : MemoryInterface T} (r : Request) {s : State}
    (hp : s.field.has_path mi.m_path = true)
    (hpath : mi.m_path.data.getLast? ≠ some '/')
    (hn : ∀ ch ∈ (s.field.at_path mi.m_path).children, ch.1 ≠ "" ∧ '/' ∉ ch.1.data) :
    (mi.request cuda r s).2.field.get? (path_segments mi.m_path) =
      s.field.get? (path_segments mi.m_path) := by
  rcases request_state cuda r hp hpath hn with h | ⟨pre, leaf, L, b, htag, ⟨c, hcp⟩, -, h⟩
  · rw [h]
  · rw [h]
    obtain ⟨hpre, hne⟩ := tag_cases htag
    exact get?_modify_mirror _ _ pre leaf mi.m_path hpre hne (component_path_head hcp).symm

theorem value_at_state {mi : MemoryInterface T} {idx : Nat} {c : Int} {s : State}
    (hp : s.field.has_path mi.m_path = true)
    (hpath : mi.m_path.data.getLast? ≠ some '/')
    (hn : ∀ ch ∈ (s.field.at_path mi.m_path).children, ch.1 ≠ "" ∧ '/' ∉ ch.1.data) :
    (mi.value_at idx c s).2 = s := by
  have hst := @raw_ptr_state T mi c s hp hpath hn
  unfold value_at
  cases hr : mi.raw_ptr c s with
  | mk r s1 =>
    rw [hr] at hst
    simp only at hst
    subst hst
    cases r with
    | error e => rfl
    | ok pl =>
      obtain ⟨p, leaf⟩ := pl
      obtain ⟨-, -, -, hpl, -⟩ := raw_ptr_ok hr
      dsimp only
      rw [state_fetch_of_has_path hpl]
      split <;> rfl

theorem value_state {mi : MemoryInterface T} {idx : Nat} {name : String} {s : State}
    (hp : s.field.has_path mi.m_path = true)
    (hpath : mi.m_path.data.getLast? ≠ some '/')
    (hn : ∀ ch ∈ (s.field.at_path mi.m_path).children, ch.1 ≠ "" ∧ '/' ∉ ch.1.data) :
    (mi.value idx name s).2 = s := by
  have hst := @resolve_component_state T mi name s hp
  unfold value
  cases hr : mi.resolve_component name s with
  | mk r s1 =>
    rw [hr] at hst
    simp only at hst
    subst hst
    cases r with
    | error e => rfl
    | ok k => exact value_at_state hp hpath hn

/-- The state `accessor` leaves behind is the state the pointer request for component 0
leaves behind, or the state before the call. -/
theorem accessor_state (cuda : Bool) {mi : MemoryInterface T} (location comp : String)
    {s : State} (hp : s.field.has_path mi.m_path = true) :
    (mi.accessor cuda location comp s).2 = s ∨
    (mi.accessor cuda location comp s).2 =
      (mi.request cuda ⟨decide (location = "device"), 0⟩ s).2 := by
  have hcs := @component_path_state T mi 0 s hp
  have hrs := @resolve_component_state T mi comp s hp
  have tail : ∀ sA, sA = s →
      (match mi.component_path 0 sA with
        | (.error e, s2) => ((.error e : Except Error (MemoryAccessor T)), s2)
        | (.ok leaf_path, s2) =>
          match (if location = "device" then mi.device_ptr_const cuda 0 s2
                 else mi.host_ptr_const cuda 0 s2) with
          | (.error e, s3) => (.error e, s3)
          | (.ok ptr, s3) =>
            (.ok (MemoryAccessor.new T ptr ((s3.field.fetch leaf_path).at_path leaf_path).dtype),
              { s3 with field := s3.field.fetch leaf_path })).2 = s ∨
      (match mi.component_path 0 sA with
        | (.error e, s2) => ((.error e : Except Error (MemoryAccessor T)), s2)
        | (.ok leaf_path, s2) =>
          match (if location = "device" then mi.device_ptr_const cuda 0 s2
                 else mi.host_ptr_const cuda 0 s2) with
          | (.error e, s3) => (.error e, s3)
          | (.ok ptr, s3) =>
            (.ok (MemoryAccessor.new T ptr ((s3.field.fetch leaf_path).at_path leaf_path).dtype),
              { s3 with field := s3.field.fetch leaf_path })).2 =
        (mi.request cuda ⟨decide (location = "device"), 0⟩ s).2 := by
    intro sA hsA
    subst hsA
    cases hcp : mi.component_path 0 sA with
    | mk r s2 =>
      rw [hcp] at hcs
      simp only at hcs
      subst hcs
      cases r with
      | error e => left; rfl
      | ok leaf =>
        right
        dsimp only
        unfold request
        by_cases hd : location = "device"
        · simp only [hd, if_true, decide_True]
          cases hq : mi.device_ptr_const cuda 0 s2 with
          | mk r s3 =>
            cases r with
            | error e => rfl
            | ok q =>
              obtain ⟨p, lf, hraw, hraw1⟩ := device_ptr_const_raw hq
              obtain ⟨-, hcp', -, -, -⟩ := raw_ptr_ok hraw
              rw [hcp] at hcp'
              simp only [Prod.mk.injEq, Except.ok.injEq, and_true] at hcp'
              subst hcp'
              obtain ⟨-, -, -, hpl1, -⟩ := raw_ptr_ok hraw1
              dsimp only
              rw [state_fetch_of_has_path hpl1]
        · simp only [hd, if_false, decide_False, Bool.false_eq_true]
          cases hq : mi.host_ptr_const cuda 0 s2 with
          | mk r s3 =>
            cases r with
            | error e => rfl
            | ok q =>
              obtain ⟨p, lf, hraw, hraw1⟩ := host_ptr_const_raw hq
              obtain ⟨-, hcp', -, -, -⟩ := raw_ptr_ok hraw
              rw [hcp] at hcp'
              simp only [Prod.mk.injEq, Except.ok.injEq, and_true] at hcp'
              subst hcp'
              obtain ⟨-, -, -, hpl1, -⟩ := raw_ptr_ok hraw1
              dsimp only
              rw [state_fetch_of_has_path hpl1]
  unfold accessor
  dsimp only
  by_cases hloc : location ≠ "device" ∧ location ≠ "host"
  · rw [if_pos hloc]; left; rfl
  · rw [if_neg hloc, state_fetch_of_has_path hp]
    by_cases hc : comp = ""
    · by_cases hm : mi.m_components ≠ 1
      · rw [if_pos hc, if_pos hm]; left; rfl
      · rw [if_pos hc, if_neg hm]
        exact tail s rfl
    · rw [if_neg hc]
      cases hr : mi.resolve_component comp s with
      | mk r s1 =>
        rw [hr] at hrs
        simp only at hrs
        subst hrs
        cases r with
        | error e => left; rfl
        | ok k => exact tail s1 rfl

/-- A call leaves the base node of the interface as it is. -/
theorem call_base (cuda : Bool) {mi : MemoryInterface T} (c : Call) {s : State}
    (hp : s.field.has_path mi.m_path = true)
    (hpath : mi.m_path.data.getLast? ≠ some '/')
    (hn : ∀ ch ∈ (s.field.at_path mi.m_path).children, ch.1 ≠ "" ∧ '/' ∉ ch.1.data) :
    (mi.call cuda c s).field.get? (path_segments mi.m_path) =
      s.field.get? (path_segments mi.m_path) := by
  cases c with
  | value idx name =>
    show (mi.value idx name s).2.field.get? _ = _
    rw [value_state hp hpath hn]
  | value_at idx k =>
    show (mi.value_at idx k s).2.field.get? _ = _
    rw [value_at_state hp hpath hn]
  | accessor location comp =>
    show (mi.accessor cuda location comp s).2.field.get? _ = _
    rcases accessor_state cuda location comp hp with h | h
    · rw [h]
    · rw [h]; exact request_base cuda _ hp hpath hn
  | device_ptr_const k =>
    exact request_base cuda ⟨true, k⟩ hp hpath hn
  | host_ptr_const k =>
    exact request_base cuda ⟨false, k⟩ hp hpath hn

/-- A sequence of calls leaves the base node of the interface as it is. -/
theorem calls_base (cuda : Bool) {mi : MemoryInterface T} (cs : List Call) {s : State}
    (hp : s.field.has_path mi.m_path = true)
    (hpath : mi.m_path.data.getLast? ≠ some '/')
    (hn : ∀ ch ∈ (s.field.at_path mi.m_path).children, ch.1 ≠ "" ∧ '/' ∉ ch.1.data) :
    (mi.calls cuda cs s).field.get? (path_segments mi.m_path) =
      s.field.get? (path_segments mi.m_path) := by
  induction cs generalizing s with
  | nil => rfl
  | cons c cs ih =>
    have hb := call_base cuda c hp hpath hn
    have hp' : (mi.call cuda c s).field.has_path mi.m_path = true := by
      unfold Node.has_path at hp ⊢; rw [hb]; exact hp
    have hat : (mi.call cuda c s).field.at_path mi.m_path = s.field.at_path mi.m_path := by
      unfold Node.at_path; rw [hb]
    have hn' : ∀ ch ∈ ((mi.call cuda c s).field.at_path mi.m_path).children,
        ch.1 ≠ "" ∧ '/' ∉ ch.1.data := by rw [hat]; exact hn
    show (mi.calls cuda cs (mi.call cuda c s)).field.get? _ = _
    rw [ih hp' hn', hb]

theorem find_child_of_nodup {name : String} {nd : Node} {cs : List (String × Node)}
    (hnd : (cs.map Prod.fst).Nodup) (h : (name, nd) ∈ cs) : find_child name cs = some nd := by
  induction cs with
  | nil => simp at h
  | cons hd tl ih =>
    obtain ⟨k, c⟩ := hd
    simp only [List.map_cons, List.nodup_cons, List.mem_map, Prod.exists, exists_and_right,
      exists_eq_right, not_exists] at hnd
    simp only [List.mem_cons, Prod.mk.injEq] at h
    rcases h with ⟨h1, h2⟩ | h
    · subst h1 h2
      simp [find_child]
    · have hk : k ≠ name := by
        intro hk
        subst hk
        exact hnd.1 nd h
      simp only [find_child, hk, if_false]
      exact ih hnd.2 h

/-- The size recorded for a valid component is the element count of the field when
the field has no children and of child number `i` otherwise. -/
theorem size_of_new {mi : MemoryInterface T} {s : State}
    (hnew : MemoryInterface.new T s.field mi.m_path = .ok mi) {i : Int}
    (h0 : 0 ≤ i) (h1 : i < mi.m_components) :
    ((s.field.at_path mi.m_path).number_of_children = 0 →
      mi.size i = some (s.field.at_path mi.m_path).dtype.number_of_elements) ∧
    (∀ name nd, (s.field.at_path mi.m_path).child i = some (name, nd) →
      mi.size i = some nd.dtype.number_of_elements) := by
  obtain ⟨-, -, hmc, hms, -⟩ := new_ok hnew
  constructor
  · intro hz
    simp only [hz, true_or, if_true] at hmc
    simp only [hz, if_true] at hms
    have hi : i = 0 := by omega
    subst hi
    simp [size, hms]
  · intro name nd hch
    have hmem := child_mem hch
    have hnz : (s.field.at_path mi.m_path).number_of_children ≠ 0 := by
      intro hz
      unfold Node.number_of_children at hz
      rw [List.length_eq_zero.mp hz] at hmem
      simp at hmem
    simp only [hnz, if_false] at hms
    unfold Node.child at hch
    simp only [not_lt.mpr h0, if_false] at hch
    unfold size
    simp only [not_lt.mpr h0, if_false, hms, List.get?_eq_getElem?, List.getElem?_map]
    rw [List.get?_eq_getElem?] at hch
    rw [hch]
    rfl

/-- The path of a component walks the base path first. -/
theorem component_path_segments {mi : MemoryInterface T} {c : Int} {s s1 : State}
    {leaf : String}
    (hpath : mi.m_path.data.getLast? ≠ some '/')
    (hn : ∀ ch ∈ (s.field.at_path mi.m_path).children, ch.1 ≠ "" ∧ '/' ∉ ch.1.data)
    (h : mi.component_path c s = (.ok leaf, s1)) :
    ∃ rest, path_segments leaf = path_segments mi.m_path ++ rest := by
  obtain ⟨-, -, -, ⟨hl, -⟩ | ⟨name, nd, hch, hl, -⟩⟩ := component_path_ok h
  · exact ⟨[], by rw [hl]; simp⟩
  · obtain ⟨hne, hs⟩ := hn _ (child_mem hch)
    exact ⟨[name], by rw [hl, path_segments_child mi.m_path name hpath hne hs]⟩

/-- C1 (failing input): over the field "values" = {"x", "y"} the name "y" resolves to
component 1, yet the view `accessor("host", "y")` is the view of component 0: in
both builds its element 0 is 1, the first element of "x", while `value(0, "y")`
is 5, the first element of "y". -/
theorem accessor_value_round_trip_fails :
    MemoryInterface.new .float64 xy_state.field "values" = .ok xy_interface ∧
    (xy_interface.resolve_component "y" xy_state).1 = .ok 1 ∧
    xy_interface.size 1 = some 4 ∧
    (xy_interface.accessor false "host" "y" xy_state).1 = .ok ⟨⟨0, 0⟩, 4, 0, 1⟩ ∧
    (xy_interface.accessor true "host" "y" xy_state).1 = .ok ⟨⟨0, 0⟩, 4, 0, 1⟩ ∧
    (xy_interface.accessor false "host" "y" xy_state).2.heap = xy_state.heap ∧
    (xy_interface.accessor true "host" "y" xy_state).2.heap = xy_state.heap ∧
    MemoryAccessor.get (⟨⟨0, 0⟩, 4, 0, 1⟩ : MemoryAccessor .float64) xy_state.heap 0 = some 1 ∧
    (xy_interface.value 0 "y" xy_state).1 = .ok 5 :=
  ⟨rfl, rfl, rfl, rfl, rfl, rfl, rfl, rfl, rfl⟩

/-- C2 (failing input): over a field whose components "x" and "y" differ in pointer,
element count, offset and stride, "y" resolves to component 1, whose host pointer
is buffer 1 and whose leaf descriptor has 3 elements, offset 8 and stride 16;
`accessor("host", "y")` returns the view of component 0 instead: buffer 0, size 4,
offset 0, stride 1. -/
theorem accessor_ignores_component_name :
    MemoryInterface.new .float64 uneven_state.field "values" = .ok uneven_interface ∧
    (uneven_interface.resolve_component "y" uneven_state).1 = .ok 1 ∧
    (uneven_interface.component_path 1 uneven_state).1 = .ok "values/y" ∧
    (uneven_state.field.at_path "values/y").dtype = ⟨.float64, 3, 8, 16⟩ ∧
    (uneven_interface.host_ptr_const false 1 uneven_state).1 = .ok ⟨1, 0⟩ ∧
    (uneven_interface.host_ptr_const true 1 uneven_state).1 = .ok ⟨1, 0⟩ ∧
    MemoryAccessor.new .float64 ⟨1, 0⟩ ⟨.float64, 3, 8, 16⟩ = ⟨⟨1, 0⟩, 3, 1, 2⟩ ∧
    (uneven_interface.accessor false "host" "y" uneven_state).1 = .ok ⟨⟨0, 0⟩, 4, 0, 1⟩ ∧
    (uneven_interface.accessor true "host" "y" uneven_state).1 = .ok ⟨⟨0, 0⟩, 4, 0, 1⟩ :=
  ⟨rfl, rfl, rfl, rfl, rfl, rfl, rfl, rfl, rfl⟩

/-- C3: idempotence of mirroring, in both builds and in every state: when
`device_ptr_const(c)` returns a pointer, the same call made right after it
returns the identical pointer and leaves tree and memory exactly as the first
call left them (no node is created, nothing is allocated); the same holds for
`host_ptr_const(c)`. -/
theorem ptr_const_idempotent (T : ElemType) (cuda : Bool) (mi : MemoryInterface T) (c : Int)
    (s s1 : State) (q : Ptr) :
    (mi.device_ptr_const cuda c s = (.ok q, s1) →
      mi.device_ptr_const cuda c s1 = (.ok q, s1)) ∧
    (mi.host_ptr_const cuda c s = (.ok q, s1) →
      mi.host_ptr_const cuda c s1 = (.ok q, s1)) :=
  ⟨device_ptr_const_idem, host_ptr_const_idem⟩

/-- Witness of C3: the second scenario (ten int32 elements in host memory) for
`device_ptr_const(0)`, and a field in device memory for `host_ptr_const(0)`;
the first call creates the mirror, the second returns it and changes nothing. -/
theorem ptr_const_idempotent_witness :
    (scalar_interface.device_ptr_const true 0 scalar_state = (.ok ⟨1, 0⟩, scalar_state_mirrored) ∧
      scalar_interface.device_ptr_const true 0 scalar_state_mirrored =
        (.ok ⟨1, 0⟩, scalar_state_mirrored)) ∧
    (device_interface.host_ptr_const true 0 device_state = (.ok ⟨1, 0⟩, device_state_mirrored) ∧
      device_interface.host_ptr_const true 0 device_state_mirrored =
        (.ok ⟨1, 0⟩, device_state_mirrored)) :=
  ⟨⟨rfl, (ptr_const_idempotent .int32 true scalar_interface 0 scalar_state
      scalar_state_mirrored ⟨1, 0⟩).1 rfl⟩,
   ⟨rfl, (ptr_const_idempotent .int32 true device_interface 0 device_state
      device_state_mirrored ⟨1, 0⟩).2 rfl⟩⟩

/-- C4: zero-copy fast path of the accelerator build.  Let `p` be the pointer stored
for component `c`.  If `p` is a device pointer, `device_ptr_const(c)` returns
exactly `p`; if `p` is not a device pointer, or is unified, `host_ptr_const(c)`
returns exactly `p`; in both cases tree and memory are left unchanged. -/
theorem zero_copy_fast_path (T : ElemType) (mi : MemoryInterface T) (c : Int) (s : State)
    (p : Ptr) (leaf : String) (hraw : (mi.raw_ptr c s).1 = .ok (p, leaf)) :
    (is_gpu_ptr s.heap p = true → mi.device_ptr_const true c s = (.ok p, s)) ∧
    (((gpu_ptr_attributes s.heap p).1 = false ∨
        ((gpu_ptr_attributes s.heap p).1 = true ∧ (gpu_ptr_attributes s.heap p).2 = true)) →
      mi.host_ptr_const true c s = (.ok p, s)) := by
  have hraw' : mi.raw_ptr c s = (.ok (p, leaf), s) := raw_ptr_of_fst hraw
  constructor
  · intro hg
    rw [device_ptr_const_of_raw_ptr true hraw']
    simp [hg]
  · intro hg
    rw [host_ptr_const_of_raw_ptr true hraw']
    rcases hg with hg | ⟨hg1, hg2⟩
    · simp [hg]
    · simp [hg1, hg2]

/-- Witness of C4: a device-resident field keeps its pointer under
`device_ptr_const(0)`, a host-resident field keeps its pointer under
`host_ptr_const(0)`. -/
theorem zero_copy_fast_path_witness :
    ((device_interface.raw_ptr 0 device_state).1 = .ok (⟨0, 0⟩, "values") ∧
      is_gpu_ptr device_state.heap ⟨0, 0⟩ = true ∧
      device_interface.device_ptr_const true 0 device_state = (.ok ⟨0, 0⟩, device_state)) ∧
    ((scalar_interface.raw_ptr 0 scalar_state).1 = .ok (⟨0, 0⟩, "values") ∧
      (gpu_ptr_attributes scalar_state.heap ⟨0, 0⟩).1 = false ∧
      scalar_interface.host_ptr_const true 0 scalar_state = (.ok ⟨0, 0⟩, scalar_state)) :=
  ⟨⟨rfl, rfl,
    (zero_copy_fast_path .int32 device_interface 0 device_state ⟨0, 0⟩ "values" rfl).1 rfl⟩,
   ⟨rfl, rfl,
    (zero_copy_fast_path .int32 scalar_interface 0 scalar_state ⟨0, 0⟩ "values" rfl).2
      (Or.inl rfl)⟩⟩

/-- C5 (amended): cache miss in an accelerator build.  Let `p` be the pointer stored
for component `c`, `leaf` the component's path and `n = size(c)`, with `n`
elements readable from `p`.  When `p` is not a device pointer and no node exists
at "device_" + leaf, `device_ptr_const(c)` puts a node at that path, tagged with
the device allocator and holding `n` elements copied from `p`, and returns that
node's pointer; the nodes of the new tree are the old ones and the nodes on the
way to the mirror path (the mirror itself and every container that was
missing); every old node whose path is not a prefix of the mirror path is
unchanged.  The same holds for `host_ptr_const(c)` with "host_" and the host
allocator when `p` is a device pointer that is not unified. -/
theorem cache_miss_creates_mirror (T : ElemType) (mi : MemoryInterface T) (c : Int) (s : State)
    (p : Ptr) (leaf : String) (n : Nat) (elems : List Int)
    (hraw : (mi.raw_ptr c s).1 = .ok (p, leaf)) (hsize : mi.size c = some n)
    (hcopy : copy_elements s.heap p n = some elems) :
    (is_gpu_ptr s.heap p = false → s.field.has_path ("device_" ++ leaf) = false →
      ∃ s', mi.device_ptr_const true c s = (.ok ⟨s.heap.length, 0⟩, s') ∧
        s'.field.get? (path_segments ("device_" ++ leaf)) =
          some (.leaf ⟨T.id, n, 0, T.sizeof⟩ ⟨s.heap.length, 0⟩ conduit_device_allocator_id) ∧
        s'.heap = s.heap ++ [⟨.device, elems⟩] ∧ elems.length = n ∧
        (∀ k < n, read s'.heap ⟨s.heap.length, 0⟩ k = read s.heap p k ∧
          (read s.heap p k).isSome = true) ∧
        (∀ q, (s'.field.get? q).isSome = true ↔
          (s.field.get? q).isSome = true ∨ q <+: path_segments ("device_" ++ leaf)) ∧
        (∀ q nd, s.field.get? q = some nd → ¬ q <+: path_segments ("device_" ++ leaf) →
          s'.field.get? q = some nd)) ∧
    ((gpu_ptr_attributes s.heap p).1 = true → (gpu_ptr_attributes s.heap p).2 = false →
      s.field.has_path ("host_" ++ leaf) = false →
      ∃ s', mi.host_ptr_const true c s = (.ok ⟨s.heap.length, 0⟩, s') ∧
        s'.field.get? (path_segments ("host_" ++ leaf)) =
          some (.leaf ⟨T.id, n, 0, T.sizeof⟩ ⟨s.heap.length, 0⟩ conduit_host_allocator_id) ∧
        s'.heap = s.heap ++ [⟨.host, elems⟩] ∧ elems.length = n ∧
        (∀ k < n, read s'.heap ⟨s.heap.length, 0⟩ k = read s.heap p k ∧
          (read s.heap p k).isSome = true) ∧
        (∀ q, (s'.field.get? q).isSome = true ↔
          (s.field.get? q).isSome = true ∨ q <+: path_segments ("host_" ++ leaf)) ∧
        (∀ q nd, s.field.get? q = some nd → ¬ q <+: path_segments ("host_" ++ leaf) →
          s'.field.get? q = some nd)) := by
  have hraw' := raw_ptr_of_fst hraw
  constructor
  · intro hg hmiss
    rw [device_ptr_const_of_raw_ptr true hraw', hsize]
    simp only [if_true, hg, Bool.false_eq_true, if_false]
    exact mirror_at_miss_spec hmiss hcopy
  · intro hg1 hg2 hmiss
    rw [host_ptr_const_of_raw_ptr true hraw', hsize]
    simp only [if_true, hg1, hg2, Bool.not_true, Bool.and_false, Bool.or_false,
      Bool.false_eq_true, if_false]
    exact mirror_at_miss_spec hmiss hcopy

/-- Witness of C5 (amended): the second scenario, ten int32 elements in host memory
mirrored to "device_values", and three int32 elements in device memory mirrored
to "host_values". -/
theorem cache_miss_creates_mirror_witness :
    ((scalar_interface.raw_ptr 0 scalar_state).1 = .ok (⟨0, 0⟩, "values") ∧
      scalar_interface.size 0 = some 10 ∧
      copy_elements scalar_state.heap ⟨0, 0⟩ 10 =
        some [10, 11, 12, 13, 14, 15, 16, 17, 18, 19] ∧
      is_gpu_ptr scalar_state.heap ⟨0, 0⟩ = false ∧
      scalar_state.field.has_path ("device_" ++ "values") = false ∧
      ∃ s', scalar_interface.device_ptr_const true 0 scalar_state =
          (.ok ⟨scalar_state.heap.length, 0⟩, s') ∧
        s'.field.get? (path_segments ("device_" ++ "values")) =
          some (.leaf ⟨ElemType.int32.id, 10, 0, ElemType.int32.sizeof⟩
            ⟨scalar_state.heap.length, 0⟩ conduit_device_allocator_id) ∧
        s'.heap =
          scalar_state.heap ++ [⟨.device, [10, 11, 12, 13, 14, 15, 16, 17, 18, 19]⟩]) ∧
    ((device_interface.raw_ptr 0 device_state).1 = .ok (⟨0, 0⟩, "values") ∧
      device_interface.size 0 = some 3 ∧
      copy_elements device_state.heap ⟨0, 0⟩ 3 = some [7, 8, 9] ∧
      (gpu_ptr_attributes device_state.heap ⟨0, 0⟩).1 = true ∧
      (gpu_ptr_attributes device_state.heap ⟨0, 0⟩).2 = false ∧
      device_state.field.has_path ("host_" ++ "values") = false ∧
      ∃ s', device_interface.host_ptr_const true 0 device_state =
          (.ok ⟨device_state.heap.length, 0⟩, s') ∧
        s'.field.get? (path_segments ("host_" ++ "values")) =
          some (.leaf ⟨ElemType.int32.id, 3, 0, ElemType.int32.sizeof⟩
            ⟨device_state.heap.length, 0⟩ conduit_host_allocator_id) ∧
        s'.heap = device_state.heap ++ [⟨.host, [7, 8, 9]⟩]) := by
  obtain ⟨s', h1, h2, h3, -⟩ :=
    (cache_miss_creates_mirror .int32 scalar_interface 0 scalar_state ⟨0, 0⟩ "values" 10
      [10, 11, 12, 13, 14, 15, 16, 17, 18, 19] rfl rfl rfl).1 rfl rfl
  obtain ⟨t', k1, k2, k3, -⟩ :=
    (cache_miss_creates_mirror .int32 device_interface 0 device_state ⟨0, 0⟩ "values" 3
      [7, 8, 9] rfl rfl rfl).2 rfl rfl rfl
  exact ⟨⟨rfl, rfl, rfl, rfl, rfl, s', h1, h2, h3⟩,
    ⟨rfl, rfl, rfl, rfl, rfl, rfl, t', k1, k2, k3⟩⟩

/-- C5 (counterexample): on the host-resident field "values" = {"x", "y"} no node
exists at "device_values/x"; `device_ptr_const(0)` creates the mirror and also
its container "device_values": the tree grows from 4 nodes to 6, by two nodes
and not by exactly one. -/
theorem cache_miss_two_nodes_counterexample :
    (xy_interface.raw_ptr 0 xy_state).1 = .ok (⟨0, 0⟩, "values/x") ∧
    is_gpu_ptr xy_state.heap ⟨0, 0⟩ = false ∧
    xy_state.field.has_path "device_values/x" = false ∧
    xy_state.field.has_path "device_values" = false ∧
    xy_state.field.count = 4 ∧
    (xy_interface.device_ptr_const true 0 xy_state).1 = .ok ⟨2, 0⟩ ∧
    (xy_interface.device_ptr_const true 0 xy_state).2.field.has_path "device_values" = true ∧
    (xy_interface.device_ptr_const true 0 xy_state).2.field.has_path "device_values/x" = true ∧
    (xy_interface.device_ptr_const true 0 xy_state).2.field.count = 6 :=
  ⟨rfl, rfl, rfl, rfl, rfl, rfl, rfl, rfl, rfl⟩

/-- C6: the mirror cache is keyed by path.  Take an interface built over a node
whose base path does not end in '/', whose field has children with plain names
(not empty, no '/'), and whose stored pointers point into allocated memory.
Whenever a request (`device_ptr_const(c)` or `host_ptr_const(c)`), made after
any sequence of requests, has returned a pointer, for instance a mirror it has
just created, the same request made after any further sequence of requests for
any components and spaces returns that same pointer and leaves tree and memory
as they are; an interface constructed later over the same node and path is the
same interface, so its requests are these requests; and a node that sits at
the mirror path of a component stays that very node through every further
sequence of requests, so a mirror is created at most once per path and space. -/
theorem mirror_cache_keyed_by_path (T : ElemType) (cuda : Bool) (mi : MemoryInterface T)
    (path : String) (s : State)
    (hnew : MemoryInterface.new T s.field path = .ok mi)
    (hpath : path.data.getLast? ≠ some '/')
    (hnames : ∀ ch ∈ (s.field.at_path path).children, ch.1 ≠ "" ∧ '/' ∉ ch.1.data)
    (hlive : ∀ c p leaf, (mi.raw_ptr c s).1 = .ok (p, leaf) → p.buf < s.heap.length)
    (before later : List Request) (r : Request) (q : Ptr) (s1 : State)
    (hreq : mi.request cuda r (mi.run cuda before s) = (.ok q, s1)) :
    mi.request cuda r (mi.run cuda later s1) = (.ok q, mi.run cuda later s1) ∧
    MemoryInterface.new T (mi.run cuda later s1).field path = .ok mi ∧
    (∀ c leaf tag nd, (tag = "device_" ∨ tag = "host_") →
      mi.component_path c s1 = (.ok leaf, s1) →
      s1.field.get? (path_segments (tag ++ leaf)) = some nd →
      (mi.run cuda later s1).field.get? (path_segments (tag ++ leaf)) = some nd) := by
  have hmp : mi.m_path = path := (new_ok hnew).2.1
  subst hmp
  obtain ⟨h1, h2, h3, -⟩ := run_keeps cuda before hnew hpath hnames hlive
  obtain ⟨k1, k2, k3, -⟩ := request_keeps cuda h1 hpath h2 h3 r
  have hs1 : (mi.request cuda r (mi.run cuda before s)).2 = s1 := by rw [hreq]
  rw [hs1] at k1 k2 k3
  obtain ⟨m1, -, -, m4⟩ := run_keeps cuda later k1 hpath k2 k3
  exact ⟨m4 r q (request_idem hreq), m1, fun c leaf tag nd htag hcp hg =>
    run_keeps_mirrors cuda later k1 hpath k2 k3 c leaf tag nd htag hcp hg⟩

/-- Witness of C6: over "values" = {"x", "y"} the device mirror of "x" is created by
the first request and returned again after requests for "y" and for the host
pointer of "x" have run in between. -/
theorem mirror_cache_keyed_by_path_witness :
    MemoryInterface.new .float64 xy_state.field "values" = .ok xy_interface ∧
    xy_interface.request true ⟨true, 0⟩ (xy_interface.run true [] xy_state) =
      (.ok ⟨2, 0⟩, xy_state_mirrored) ∧
    (xy_interface.run true xy_requests xy_state_mirrored).field.has_path "device_values/y" = true ∧
    xy_interface.request true ⟨true, 0⟩ (xy_interface.run true xy_requests xy_state_mirrored) =
      (.ok ⟨2, 0⟩, xy_interface.run true xy_requests xy_state_mirrored) ∧
    MemoryInterface.new .float64 (xy_interface.run true xy_requests xy_state_mirrored).field
      "values" = .ok xy_interface := by
  have hn : ∀ ch ∈ (xy_state.field.at_path "values").children,
      ch.1 ≠ "" ∧ '/' ∉ ch.1.data := by
    have hc : (xy_state.field.at_path "values").children =
        [("x", .leaf ⟨.float64, 4, 0, 8⟩ ⟨0, 0⟩ .standard),
         ("y", .leaf ⟨.float64, 4, 0, 8⟩ ⟨1, 0⟩ .standard)] := rfl
    rw [hc]
    intro ch hmem
    simp only [List.mem_cons, List.mem_singleton, List.not_mem_nil, or_false] at hmem
    rcases hmem with rfl | rfl <;> exact ⟨by decide, by decide⟩
  have hlive : ∀ c p leaf, (xy_interface.raw_ptr c xy_state).1 = .ok (p, leaf) →
      p.buf < xy_state.heap.length := by
    intro c p leaf h
    obtain ⟨-, hcp, -⟩ := raw_ptr_ok (raw_ptr_of_fst h)
    obtain ⟨-, h0, h1, -⟩ := component_path_ok hcp
    have h2 : c < 2 := h1
    have hc : c = 0 ∨ c = 1 := by omega
    rcases hc with rfl | rfl
    · have hv : (xy_interface.raw_ptr 0 xy_state).1 = .ok (⟨0, 0⟩, "values/x") := rfl
      rw [hv] at h
      injection h with h
      injection h with hp
      subst hp
      decide
    · have hv : (xy_interface.raw_ptr 1 xy_state).1 = .ok (⟨1, 0⟩, "values/y") := rfl
      rw [hv] at h
      injection h with h
      injection h with hp
      subst hp
      decide
  have h := mirror_cache_keyed_by_path .float64 true xy_interface "values" xy_state rfl
    (by decide) hn hlive [] xy_requests ⟨true, 0⟩ ⟨2, 0⟩ xy_state_mirrored rfl
  exact ⟨rfl, rfl, rfl, h.1, h.2.1⟩

/-- C7 (amended): on an interface built over the current node, `component_path(index)`
fails if and only if the index is outside `[0, components())`; for a valid index
it returns the base path when the field has no children, and
`base_path + "/" + name of child number index` when the field has one child or
more; the node is left as it is. -/
theorem component_path_spec (T : ElemType) (mi : MemoryInterface T) (s : State) (path : String)
    (hnew : MemoryInterface.new T s.field path = .ok mi) (component : Int) :
    ((∃ e, (mi.component_path component s).1 = .error e) ↔
      (component < 0 ∨ mi.components ≤ component)) ∧
    (0 ≤ component → component < mi.components →
      ((s.field.at_path path).number_of_children = 0 →
        mi.component_path component s = (.ok path, s)) ∧
      (1 ≤ (s.field.at_path path).number_of_children →
        ∃ name c, (s.field.at_path path).child component = some (name, c) ∧
          mi.component_path component s = (.ok (path ++ "/" ++ name), s))) := by
  obtain ⟨hp, hmp, hmc, -, -⟩ := new_ok hnew
  subst hmp
  have hst : ({ s with field := s.field.fetch mi.m_path } : State) = s :=
    state_fetch_of_has_path hp
  have hin : 0 ≤ component → component < mi.components →
      1 ≤ (s.field.at_path mi.m_path).number_of_children →
      ∃ name c, (s.field.at_path mi.m_path).child component = some (name, c) := by
    intro h0 h1 h2
    apply child_lt h0
    simp only [components, hmc] at h1
    split_ifs at h1 with h3
    · omega
    · exact h1
  constructor
  · constructor
    · rintro ⟨e, he⟩
      by_contra hcon
      push_neg at hcon
      obtain ⟨h0, h1⟩ := hcon
      have hr : ¬ (component < 0 ∨ component ≥ mi.m_components) := by
        simp only [components] at h1; omega
      unfold component_path at he
      simp only [hr, if_false, at_path_fetch] at he
      by_cases hc : (s.field.at_path mi.m_path).number_of_children > 0
      · obtain ⟨name, c, hch⟩ := hin h0 h1 hc
        simp [hc, hch] at he
      · simp [hc] at he
    · intro h
      have hr : component < 0 ∨ component ≥ mi.m_components := by
        simp only [components] at h; omega
      exact ⟨.invalid_component, by simp [component_path, hr]⟩
  · intro h0 h1
    have hr : ¬ (component < 0 ∨ component ≥ mi.m_components) := by
      simp only [components] at h1; omega
    constructor
    · intro hc
      unfold component_path
      simp only [hr, if_false, at_path_fetch, hc, hst]
      simp
    · intro hc
      obtain ⟨name, c, hch⟩ := hin h0 h1 hc
      refine ⟨name, c, hch, ?_⟩
      unfold component_path
      simp only [hr, if_false, at_path_fetch, hst, hch]
      simp only [gt_iff_lt, Nat.lt_of_lt_of_le Nat.zero_lt_one hc, if_true]

/-- Witness of C7 (amended): component 1 of the field "values" = {"x", "y"}. -/
theorem component_path_spec_witness :
    MemoryInterface.new .float64 xy_state.field "values" = .ok xy_interface ∧
    ∃ name c, (xy_state.field.at_path "values").child 1 = some (name, c) ∧
      xy_interface.component_path 1 xy_state = (.ok ("values" ++ "/" ++ name), xy_state) :=
  ⟨rfl, ((component_path_spec .float64 xy_interface xy_state "values" rfl 1).2
    (by decide) (by decide)).2 (by decide)⟩

/-- C7 (counterexample): the field "values" has exactly one child, "x"; the interface
built over it has one component, and `component_path(0)` is "values/x", not the
base path "values". -/
theorem component_path_single_child_counterexample :
    MemoryInterface.new .float64 one_child_state.field "values" = .ok one_child_interface ∧
    (one_child_state.field.at_path "values").number_of_children = 1 ∧
    one_child_interface.components = 1 ∧
    (one_child_interface.component_path 0 one_child_state).1 = .ok "values/x" ∧
    (one_child_interface.component_path 0 one_child_state).1 ≠ .ok one_child_interface.m_path := by
  refine ⟨rfl, rfl, rfl, rfl, ?_⟩
  intro h
  have h2 : (Except.ok "values/x" : Except Error String) = .ok "values" := h
  injection h2 with h3
  exact absurd h3 (by decide)

/-- C8: `resolve_component("")` returns 0 whenever `components() == 1`; when the
children of the field have non-empty names it succeeds if and only if
`components() == 1`, and it fails on every field with `components() > 1`. -/
theorem resolve_component_empty_name (T : ElemType) (mi : MemoryInterface T) (s : State) :
    (mi.components = 1 → mi.resolve_component "" s = (.ok 0, s)) ∧
    ((∀ c ∈ (s.field.at_path mi.m_path).children, c.1 ≠ "") →
      ((∃ k, (mi.resolve_component "" s).1 = .ok k) ↔ mi.components = 1) ∧
      (1 < mi.components → ∃ e, (mi.resolve_component "" s).1 = .error e)) := by
  have h1 : mi.components = 1 → mi.resolve_component "" s = (.ok 0, s) := by
    intro h
    simp only [components] at h
    simp [resolve_component, h]
  have h2 : (∀ c ∈ (s.field.at_path mi.m_path).children, c.1 ≠ "") → mi.components ≠ 1 →
      (mi.resolve_component "" s).1 = .error .no_component_named := by
    intro hn hc
    simp only [components] at hc
    unfold resolve_component
    simp only [hc, false_and, if_false, at_path_fetch]
    rw [(resolve_loop_none "" _ 0).mpr hn]
  refine ⟨h1, fun hn => ⟨⟨?_, ?_⟩, ?_⟩⟩
  · rintro ⟨k, hk⟩
    by_contra hc
    rw [h2 hn hc] at hk
    cases hk
  · intro hc
    exact ⟨0, by rw [h1 hc]⟩
  · intro hc
    exact ⟨_, h2 hn (by omega)⟩

/-- Witness of C8: the empty name is refused on the field "values" = {"x", "y"} and
resolves to 0 on the childless field of the second scenario. -/
theorem resolve_component_empty_name_witness :
    ((∀ c ∈ (xy_state.field.at_path xy_interface.m_path).children, c.1 ≠ "") ∧
      (1 : Int) < xy_interface.components ∧
      ∃ e, (xy_interface.resolve_component "" xy_state).1 = .error e) ∧
    (scalar_interface.components = 1 ∧
      scalar_interface.resolve_component "" scalar_state = (.ok 0, scalar_state)) := by
  have hn : ∀ c ∈ (xy_state.field.at_path xy_interface.m_path).children, c.1 ≠ "" := by
    have hc : (xy_state.field.at_path xy_interface.m_path).children =
        [("x", .leaf ⟨.float64, 4, 0, 8⟩ ⟨0, 0⟩ .standard),
         ("y", .leaf ⟨.float64, 4, 0, 8⟩ ⟨1, 0⟩ .standard)] := rfl
    rw [hc]
    intro c hmem
    simp only [List.mem_cons, List.mem_singleton, List.not_mem_nil, or_false] at hmem
    rcases hmem with rfl | rfl <;> decide
  exact ⟨⟨hn, by decide,
      ((resolve_component_empty_name .float64 xy_interface xy_state).2 hn).2 (by decide)⟩,
    ⟨rfl, (resolve_component_empty_name .int32 scalar_interface scalar_state).1 rfl⟩⟩

/-- C9: for every non-empty name, `resolve_component(name)` returns `k` exactly when
`k` is the smallest index, in child order, of a child of the field whose name
equals `name`; it fails if and only if no child has that name, in particular on
a field with no children. -/
theorem resolve_component_named (T : ElemType) (mi : MemoryInterface T) (s : State)
    (name : String) (hne : name ≠ "") :
    (∀ k : Int, (mi.resolve_component name s).1 = .ok k ↔
      ∃ i : Nat, k = (i : Int) ∧
        (∃ c, (s.field.at_path mi.m_path).children.get? i = some c ∧ c.1 = name) ∧
        ∀ j < i, ∀ c, (s.field.at_path mi.m_path).children.get? j = some c → c.1 ≠ name) ∧
    ((∃ e, (mi.resolve_component name s).1 = .error e) ↔
      ∀ c ∈ (s.field.at_path mi.m_path).children, c.1 ≠ name) ∧
    ((s.field.at_path mi.m_path).children = [] →
      (mi.resolve_component name s).1 = .error .no_component_named) := by
  have hunf : (mi.resolve_component name s).1 =
      match resolve_loop name (s.field.at_path mi.m_path).children 0 with
      | some i => .ok (i : Int)
      | none => .error .no_component_named := by
    unfold resolve_component
    simp only [hne, and_false, if_false, at_path_fetch]
    cases resolve_loop name (s.field.at_path mi.m_path).children 0 <;> rfl
  rw [hunf]
  refine ⟨?_, ?_, ?_⟩
  · intro k
    cases hl : resolve_loop name (s.field.at_path mi.m_path).children 0 with
    | none =>
      simp only [false_iff, reduceCtorEq]
      rintro ⟨i, -, ⟨c, hc, hn⟩, -⟩
      exact (resolve_loop_none name _ 0).mp hl c (List.get?_mem hc) hn
    | some i =>
      simp only [Except.ok.injEq]
      constructor
      · intro hk
        obtain ⟨j, hj, hex, hmin⟩ := (resolve_loop_some name _ 0 i).mp hl
        exact ⟨j, by omega, hex, hmin⟩
      · rintro ⟨j, hj, hex, hmin⟩
        have := (resolve_loop_some name _ 0 j).mpr ⟨j, by omega, hex, hmin⟩
        rw [hl] at this
        injection this with this
        omega
  · cases hl : resolve_loop name (s.field.at_path mi.m_path).children 0 with
    | none =>
      simp only [Except.error.injEq, exists_eq', true_iff]
      exact (resolve_loop_none name _ 0).mp hl
    | some i =>
      simp only [reduceCtorEq, exists_false, false_iff]
      intro hall
      have := (resolve_loop_none name _ 0).mpr hall
      rw [hl] at this
      cases this
  · intro hnil
    rw [hnil]
    rfl

/-- Witness of C9: "y" is child number 1 of the field "values" = {"x", "y"}. -/
theorem resolve_component_named_witness :
    ("y" : String) ≠ "" ∧ (xy_interface.resolve_component "y" xy_state).1 = .ok 1 :=
  ⟨by decide,
    ((resolve_component_named .float64 xy_interface xy_state "y" (by decide)).1 1).mpr
      ⟨1, rfl, ⟨("y", .leaf ⟨.float64, 4, 0, 8⟩ ⟨1, 0⟩ .standard), rfl, rfl⟩, by
        intro j hj c hc
        have hj0 : j = 0 := by omega
        subst hj0
        have hx : (xy_state.field.at_path xy_interface.m_path).children.get? 0 =
            some ("x", .leaf ⟨.float64, 4, 0, 8⟩ ⟨0, 0⟩ .standard) := rfl
        rw [hx] at hc
        injection hc with hc
        subst hc
        decide⟩⟩

/-- C10: for every node that has the path and whose field is a childless leaf of
element type `T`, or has children that are all leaves of element type `T`,
construction succeeds and `components()` is `max(1, number of children)`: 1 for
0 or 1 children, the child count otherwise. -/
theorem new_succeeds_components (T : ElemType) (field : Node) (path : String)
    (hpath : field.has_path path = true)
    (htype : (∃ d p a, field.at_path path = .leaf d p a ∧ d.id = T.id) ∨
      ((field.at_path path).children ≠ [] ∧
        ∀ c ∈ (field.at_path path).children, ∃ d p a, c.2 = .leaf d p a ∧ d.id = T.id)) :
    ∃ mi, MemoryInterface.new T field path = .ok mi ∧
      mi.components = max 1 ((field.at_path path).number_of_children : Int) ∧
      ((field.at_path path).number_of_children ≤ 1 → mi.components = 1) ∧
      (2 ≤ (field.at_path path).number_of_children →
        mi.components = ((field.at_path path).number_of_children : Int)) := by
  have hloop : (field.at_path path).number_of_children ≠ 0 →
      (constructor_loop T (field.at_path path).children).1 = true := by
    intro hne
    rcases htype with ⟨d, p, a, hl, _⟩ | ⟨_, hall⟩
    · rw [hl] at hne; simp [Node.number_of_children] at hne
    · rw [constructor_loop_fst]
      intro c hc
      obtain ⟨d, p, a, hl, hid⟩ := hall c hc
      rw [hl, is_conduit_type_leaf]; exact hid
  have hleaf : (field.at_path path).number_of_children = 0 →
      is_conduit_type T (field.at_path path) = true := by
    intro h0
    rcases htype with ⟨d, p, a, hl, hid⟩ | ⟨hne, _⟩
    · rw [hl, is_conduit_type_leaf]; exact hid
    · exact absurd (List.length_eq_zero.mp h0) hne
  unfold MemoryInterface.new
  simp only [hpath, Bool.not_true, Bool.false_eq_true, if_false]
  by_cases h0 : (field.at_path path).number_of_children = 0
  · simp [h0, hleaf h0, components]
  · simp only [h0, if_false, hloop h0, Bool.not_true, Bool.false_eq_true, false_or]
    refine ⟨_, rfl, ?_, ?_, ?_⟩
    · simp only [components]
      split_ifs with h1
      · simp [h1]
      · omega
    · intro hle
      have h1 : (field.at_path path).number_of_children = 1 := by omega
      simp [components, h1]
    · intro hge
      have h1 : (field.at_path path).number_of_children ≠ 1 := by omega
      simp [components, h1]

/-- Witness of C10 on the two-component field "values" = {"x", "y"}. -/
theorem new_succeeds_components_witness :
    xy_field.has_path "values" = true ∧
    ((xy_field.at_path "values").children ≠ [] ∧
      ∀ c ∈ (xy_field.at_path "values").children,
        ∃ d p a, c.2 = .leaf d p a ∧ d.id = ElemType.float64.id) ∧
    ∃ mi, MemoryInterface.new .float64 xy_field "values" = .ok mi ∧
      mi.components = max 1 ((xy_field.at_path "values").number_of_children : Int) ∧
      ((xy_field.at_path "values").number_of_children ≤ 1 → mi.components = 1) ∧
      (2 ≤ (xy_field.at_path "values").number_of_children →
        mi.components = ((xy_field.at_path "values").number_of_children : Int)) := by
  have hc : (xy_field.at_path "values").children =
      [("x", .leaf ⟨.float64, 4, 0, 8⟩ ⟨0, 0⟩ .standard),
       ("y", .leaf ⟨.float64, 4, 0, 8⟩ ⟨1, 0⟩ .standard)] := rfl
  have h2 : (xy_field.at_path "values").children ≠ [] ∧
      ∀ c ∈ (xy_field.at_path "values").children,
        ∃ d p a, c.2 = .leaf d p a ∧ d.id = ElemType.float64.id := by
    rw [hc]
    refine ⟨by simp, ?_⟩
    intro c hmem
    simp only [List.mem_cons, List.mem_singleton, List.not_mem_nil, or_false] at hmem
    rcases hmem with rfl | rfl
    · exact ⟨_, _, _, rfl, rfl⟩
    · exact ⟨_, _, _, rfl, rfl⟩
  exact ⟨rfl, h2, new_succeeds_components .float64 xy_field "values" rfl (Or.inr h2)⟩

/-- C11: given that the path exists, construction fails with the type-mismatch error
if and only if some component's stored element type differs from `T`: the field
node itself when it has no children, otherwise at least one of its children,
wherever it sits in the order; and no other error is possible then. -/
theorem new_type_mismatch_iff (T : ElemType) (field : Node) (path : String)
    (hpath : field.has_path path = true) :
    (MemoryInterface.new T field path = .error .type_mismatch ↔
      (((field.at_path path).number_of_children = 0 ∧ (field.at_path path).dtype.id ≠ T.id) ∨
        ((field.at_path path).number_of_children ≠ 0 ∧
          ∃ c ∈ (field.at_path path).children, c.2.dtype.id ≠ T.id))) ∧
    (∀ e, MemoryInterface.new T field path = .error e → e = .type_mismatch) := by
  unfold MemoryInterface.new
  simp only [hpath, Bool.not_true, Bool.false_eq_true, if_false]
  by_cases h0 : (field.at_path path).number_of_children = 0
  · simp only [h0, if_true, true_and, ne_eq, not_true_eq_false, false_and, or_false]
    by_cases ht : is_conduit_type T (field.at_path path) = true
    · have hid : (field.at_path path).dtype.id = T.id := by simpa [is_conduit_type] using ht
      simp [ht, hid]
    · have hid : (field.at_path path).dtype.id ≠ T.id := by simpa [is_conduit_type] using ht
      simp [ht, hid]
  · simp only [h0, if_false, false_and, ne_eq, not_false_eq_true, true_and, false_or]
    by_cases ht : (constructor_loop T (field.at_path path).children).1 = true
    · have hall := (constructor_loop_fst T _).mp ht
      simp only [ht, Bool.not_true, Bool.false_eq_true, if_false, reduceCtorEq, false_iff,
        not_exists, not_and, not_not, IsEmpty.forall_iff, implies_true, and_true]
      intro c hc
      simpa [is_conduit_type] using hall c hc
    · have hf : (constructor_loop T (field.at_path path).children).1 = false := by
        simpa using ht
      have hex := (constructor_loop_fst_false T _).mp hf
      simp only [hf, Bool.not_false, if_true, true_iff, Except.error.injEq]
      exact ⟨hex, fun e he => he.symm⟩

/-- Witness of C11: of the three children of "values" only the second one, "y", does
not hold float64 elements; construction fails with the type-mismatch error. -/
theorem new_type_mismatch_iff_witness :
    mixed_field.has_path "values" = true ∧
    (mixed_field.at_path "values").number_of_children ≠ 0 ∧
    (∃ c ∈ (mixed_field.at_path "values").children, c.2.dtype.id ≠ ElemType.float64.id) ∧
    MemoryInterface.new .float64 mixed_field "values" = .error .type_mismatch := by
  have hc : (mixed_field.at_path "values").children =
      [("x", .leaf ⟨.float64, 2, 0, 8⟩ ⟨0, 0⟩ .standard),
       ("y", .leaf ⟨.int32, 2, 0, 4⟩ ⟨1, 0⟩ .standard),
       ("z", .leaf ⟨.float64, 2, 0, 8⟩ ⟨2, 0⟩ .standard)] := rfl
  have hex : ∃ c ∈ (mixed_field.at_path "values").children,
      c.2.dtype.id ≠ ElemType.float64.id := by
    rw [hc]
    exact ⟨("y", .leaf ⟨.int32, 2, 0, 4⟩ ⟨1, 0⟩ .standard), by simp, by decide⟩
  have hnz : (mixed_field.at_path "values").number_of_children ≠ 0 := by decide
  exact ⟨rfl, hnz, hex,
    (new_type_mismatch_iff .float64 mixed_field "values" rfl).1.mpr (Or.inr ⟨hnz, hex⟩)⟩

/-- C12: after a successful construction, for every `i` in `[0, components())`,
`size(i)` is the element count recorded at construction: that of the field when
it has no children, that of child number `i` otherwise, which is the leaf at
`component_path(i)` (for children with distinct plain names under a base path
that does not end in '/').  `size` reads only the recorded sizes, which no
member writes: after any sequence of `value`, `accessor`, `device_ptr_const`
and `host_ptr_const` calls `component_path(i)` is the same path and `size(i)`
is still that count, which is also still the count of the leaf in the tree. -/
theorem size_is_snapshot (T : ElemType) (cuda : Bool) (mi : MemoryInterface T) (path : String)
    (s : State) (hnew : MemoryInterface.new T s.field path = .ok mi) (i : Int)
    (h0 : 0 ≤ i) (h1 : i < mi.components) :
    ∃ leaf n, mi.component_path i s = (.ok leaf, s) ∧ mi.size i = some n ∧
      ((s.field.at_path path).number_of_children = 0 →
        leaf = path ∧ n = (s.field.at_path path).dtype.number_of_elements) ∧
      (∀ name nd, (s.field.at_path path).child i = some (name, nd) →
        leaf = path ++ "/" ++ name ∧ n = nd.dtype.number_of_elements) ∧
      (path.data.getLast? ≠ some '/' →
        (∀ ch ∈ (s.field.at_path path).children, ch.1 ≠ "" ∧ '/' ∉ ch.1.data) →
        ((s.field.at_path path).children.map Prod.fst).Nodup →
        n = (s.field.at_path leaf).dtype.number_of_elements ∧
        ∀ cs : List Call,
          mi.component_path i (mi.calls cuda cs s) = (.ok leaf, mi.calls cuda cs s) ∧
          mi.size i = some ((mi.calls cuda cs s).field.at_path leaf).dtype.number_of_elements) := by
  have hmp : mi.m_path = path := (new_ok hnew).2.1
  subst hmp
  have hp : s.field.has_path mi.m_path = true := (new_ok hnew).1
  obtain ⟨leaf, hcp⟩ := component_path_valid hnew h0 h1
  obtain ⟨hsz0, hszc⟩ := size_of_new hnew h0 h1
  have hshape := (component_path_ok hcp).2.2.2
  have hsize : ∃ n, mi.size i = some n := by
    rcases hshape with ⟨-, hz⟩ | ⟨name, nd, hch, -, -⟩
    · exact ⟨_, hsz0 hz⟩
    · exact ⟨_, hszc name nd hch⟩
  obtain ⟨n, hn⟩ := hsize
  have hzero : (s.field.at_path mi.m_path).number_of_children = 0 →
      leaf = mi.m_path ∧ n = (s.field.at_path mi.m_path).dtype.number_of_elements := by
    intro hz
    have hl : leaf = mi.m_path := by
      rcases hshape with ⟨hl, -⟩ | ⟨-, -, -, -, hpos⟩
      · exact hl
      · omega
    have := hsz0 hz
    rw [hn] at this
    injection this with this
    exact ⟨hl, this⟩
  have hchild : ∀ name nd, (s.field.at_path mi.m_path).child i = some (name, nd) →
      leaf = mi.m_path ++ "/" ++ name ∧ n = nd.dtype.number_of_elements := by
    intro name nd hch
    have hl : leaf = mi.m_path ++ "/" ++ name := by
      rcases hshape with ⟨-, hz⟩ | ⟨name', nd', hch', hl, -⟩
      · have hmem := child_mem hch
        unfold Node.number_of_children at hz
        rw [List.length_eq_zero.mp hz] at hmem
        simp at hmem
      · rw [hch] at hch'
        injection hch' with hch'
        injection hch' with h1' h2'
        rw [hl, h1']
    have := hszc name nd hch
    rw [hn] at this
    injection this with this
    exact ⟨hl, this⟩
  refine ⟨leaf, n, hcp, hn, hzero, hchild, ?_⟩
  intro hpath hnames hnodup
  have hnow : n = (s.field.at_path leaf).dtype.number_of_elements := by
    rcases hshape with ⟨hl, hz⟩ | ⟨name, nd, hch, hl, -⟩
    · rw [hl]; exact (hzero hz).2
    · have hmem := child_mem hch
      obtain ⟨hne, hs⟩ := hnames _ hmem
      have hat : s.field.at_path leaf = nd := by
        unfold Node.at_path
        rw [hl, path_segments_child mi.m_path name hpath hne hs, get?_append,
          at_path_eq_of_has_path hp]
        simp [Node.get?, find_child_of_nodup hnodup hmem]
      rw [hat]
      exact (hchild name nd hch).2
  refine ⟨hnow, ?_⟩
  intro cs
  have hb := calls_base cuda cs hp hpath hnames
  obtain ⟨rest, hrest⟩ := component_path_segments hpath hnames hcp
  have hat : (mi.calls cuda cs s).field.at_path leaf = s.field.at_path leaf := by
    unfold Node.at_path
    rw [hrest, get?_append, get?_append, hb]
  exact ⟨component_path_frame hcp hp hb, by rw [hat, hn, hnow]⟩

/-- Witness of C12: the size of component 1 of "values" = {"x", "y"} is the element
count of the leaf "values/y", before and after calls of every kind. -/
theorem size_is_snapshot_witness :
    MemoryInterface.new .float64 xy_state.field "values" = .ok xy_interface ∧
    (0 : Int) ≤ 1 ∧ (1 : Int) < xy_interface.components ∧
    xy_interface.size 1 = some (xy_state.field.at_path "values/y").dtype.number_of_elements ∧
    xy_interface.size 1 =
      some ((xy_interface.calls true xy_calls xy_state).field.at_path
        "values/y").dtype.number_of_elements := by
  have hc : (xy_state.field.at_path "values").children =
      [("x", .leaf ⟨.float64, 4, 0, 8⟩ ⟨0, 0⟩ .standard),
       ("y", .leaf ⟨.float64, 4, 0, 8⟩ ⟨1, 0⟩ .standard)] := rfl
  have hn : ∀ ch ∈ (xy_state.field.at_path "values").children,
      ch.1 ≠ "" ∧ '/' ∉ ch.1.data := by
    rw [hc]
    intro ch hmem
    simp only [List.mem_cons, List.mem_singleton, List.not_mem_nil, or_false] at hmem
    rcases hmem with rfl | rfl <;> exact ⟨by decide, by decide⟩
  have hnd : ((xy_state.field.at_path "values").children.map Prod.fst).Nodup := by
    rw [hc]; decide
  obtain ⟨leaf, n, -, hsz, -, hchild, hrest⟩ :=
    size_is_snapshot .float64 true xy_interface "values" xy_state rfl 1 (by decide) (by decide)
  obtain ⟨hleaf, -⟩ := hchild "y" (.leaf ⟨.float64, 4, 0, 8⟩ ⟨1, 0⟩ .standard) rfl
  obtain ⟨hnow, hlater⟩ := hrest (by decide) hn hnd
  have hl : leaf = "values/y" := hleaf
  subst hl
  exact ⟨rfl, by decide, by decide, by rw [hsz, hnow], (hlater xy_calls).2⟩

/-- C13 (failing input): over "values" = {"x", "y"}, four float64 elements each with
unit stride and offset 0, `value(2, "y")` is `value(2, 1)`; the descriptor's
element-index rule gives 16 for index 2, a byte offset, and `value` uses it as
an element index: it reads `ptr[16]`, outside the four elements of "y", where
the third stored element is `ptr[2] = 7`.  Over a field whose two elements are
the start of a larger buffer, `value(1, "")` returns the element at position 8,
108, where the second stored element is 101. -/
theorem value_uses_byte_index :
    MemoryInterface.new .float64 xy_state.field "values" = .ok xy_interface ∧
    (xy_interface.resolve_component "y" xy_state).1 = .ok 1 ∧
    (xy_interface.value 2 "y" xy_state).1 = (xy_interface.value_at 2 1 xy_state).1 ∧
    (xy_state.field.at_path "values/y").dtype.element_index 2 = 16 ∧
    (xy_interface.value 2 "y" xy_state).1 = .error .fault ∧
    read xy_state.heap ⟨1, 0⟩ 2 = some 7 ∧
    MemoryAccessor.get (MemoryAccessor.new .float64 ⟨1, 0⟩
      (xy_state.field.at_path "values/y").dtype) xy_state.heap 2 = some 7 ∧
    MemoryInterface.new .float64 wide_state.field "values" = .ok wide_interface ∧
    (wide_interface.value 1 "" wide_state).1 = .ok 108 ∧
    read wide_state.heap ⟨0, 0⟩ 1 = some 101 :=
  ⟨rfl, rfl, rfl, rfl, rfl, rfl, rfl, rfl, rfl, rfl⟩

/-- C14: a `MemoryAccessor` built from a buffer and a descriptor with element count
`n`, byte offset `o` and byte stride `s`, over an element type of size `w`, has
`m_size = n`, and for every `i` in `[0, n)` its `operator[](i)` reads
`buffer[o / w + (s / w) * i]` with integer division; when `o` and `s` are
multiples of `w` that element lies `o + s * i` bytes from the buffer start. -/
theorem memory_accessor_read (T : ElemType) (buffer : Ptr) (id : TypeId) (n o s : Nat)
    (heap : List Buffer) :
    (MemoryAccessor.new T buffer ⟨id, n, o, s⟩).m_size = n ∧
    ∀ i, i < n →
      (MemoryAccessor.new T buffer ⟨id, n, o, s⟩).get heap i =
        read heap buffer (o / T.sizeof + s / T.sizeof * i) ∧
      (T.sizeof ∣ o → T.sizeof ∣ s →
        (o / T.sizeof + s / T.sizeof * i) * T.sizeof = o + s * i) := by
  refine ⟨rfl, fun i _ => ⟨rfl, ?_⟩⟩
  intro ho hs
  obtain ⟨a, ha⟩ := ho
  obtain ⟨b, hb⟩ := hs
  have hw : 0 < T.sizeof := by cases T <;> decide
  subst ha hb
  rw [Nat.mul_div_cancel_left _ hw, Nat.mul_div_cancel_left _ hw]
  ring

/-- Witness of C14: float64 elements, byte offset 8 and byte stride 16: element 1
of the view is `buffer[3]`, which lies 24 bytes from the buffer start. -/
theorem memory_accessor_read_witness :
    (1 : Nat) < 3 ∧ ElemType.float64.sizeof ∣ 8 ∧ ElemType.float64.sizeof ∣ 16 ∧
    (MemoryAccessor.new .float64 ⟨1, 0⟩ ⟨.float64, 3, 8, 16⟩).get uneven_state.heap 1 =
      read uneven_state.heap ⟨1, 0⟩ (8 / ElemType.float64.sizeof +
        16 / ElemType.float64.sizeof * 1) ∧
    (8 / ElemType.float64.sizeof + 16 / ElemType.float64.sizeof * 1) *
      ElemType.float64.sizeof = 8 + 16 * 1 :=
  ⟨by decide, by decide, by decide,
    ((memory_accessor_read .float64 ⟨1, 0⟩ .float64 3 8 16 uneven_state.heap).2 1
      (by decide)).1,
    ((memory_accessor_read .float64 ⟨1, 0⟩ .float64 3 8 16 uneven_state.heap).2 1
      (by decide)).2 (by decide) (by decide)⟩

/-- C15: for every location other than "host" and "device", `accessor(location, comp)`
and `ptr_const(location)` fail with the location error, whatever the component
and the state, and leave the state untouched; for "host" and "device" neither
raises the location error. -/
theorem invalid_location_rejected (T : ElemType) (cuda : Bool) (mi : MemoryInterface T)
    (location comp : String) (s : State) :
    ((location ≠ "host" ∧ location ≠ "device") →
      mi.accessor cuda location comp s = (.error .invalid_location, s) ∧
      mi.ptr_const cuda location s = (.error .invalid_location, s)) ∧
    ((location = "host" ∨ location = "device") →
      (mi.accessor cuda location comp s).1 ≠ .error .invalid_location ∧
      (mi.ptr_const cuda location s).1 ≠ .error .invalid_location) := by
  constructor
  · rintro ⟨h1, h2⟩
    constructor
    · unfold accessor
      rw [if_pos ⟨h2, h1⟩]
    · unfold ptr_const
      rw [if_pos ⟨h1, h2⟩]
  · intro hloc
    constructor
    · intro h
      rcases accessor_error h with ⟨-, h1, h2⟩ | ⟨h1, -⟩ | ⟨h1, -⟩ | h1 | h1 | h1
      · rcases hloc with h3 | h3
        · exact h2 h3
        · exact h1 h3
      all_goals cases h1
    · intro h
      unfold ptr_const at h
      have hnl : ¬ (location ≠ "host" ∧ location ≠ "device") := by
        rcases hloc with h | h <;> simp [h]
      rw [if_neg hnl] at h
      split at h
      · rcases device_ptr_const_error h with h1 | h1 | h1 <;> cases h1
      · rcases host_ptr_const_error h with h1 | h1 | h1 <;> cases h1

/-- Witness of C15: the location "gpu" is refused by both members and the state is
the state before the call; the location "host" is not refused. -/
theorem invalid_location_rejected_witness :
    (("gpu" : String) ≠ "host" ∧ ("gpu" : String) ≠ "device") ∧
    (xy_interface.accessor true "gpu" "x" xy_state = (.error .invalid_location, xy_state) ∧
      xy_interface.ptr_const true "gpu" xy_state = (.error .invalid_location, xy_state)) ∧
    ((xy_interface.accessor true "host" "x" xy_state).1 ≠ .error .invalid_location ∧
      (xy_interface.ptr_const true "host" xy_state).1 ≠ .error .invalid_location) :=
  ⟨⟨by decide, by decide⟩,
    (invalid_location_rejected .float64 true xy_interface "gpu" "x" xy_state).1
      ⟨by decide, by decide⟩,
    (invalid_location_rejected .float64 true xy_interface "host" "x" xy_state).2
      (Or.inl rfl)⟩

/-- C16: capability fallback.  In a build without accelerator support
`device_ptr_const(c)` and `host_ptr_const(c)` both return the pointer stored for
the component and leave tree and memory unchanged; and that stored pointer
exists for every valid component of an interface built over the node (base
path not ending in '/', children with plain names). -/
theorem no_accelerator_fallback (T : ElemType) (mi : MemoryInterface T) (c : Int) (s : State) :
    (∀ p leaf, (mi.raw_ptr c s).1 = .ok (p, leaf) →
      mi.device_ptr_const false c s = (.ok p, s) ∧
      mi.host_ptr_const false c s = (.ok p, s)) ∧
    (∀ path, MemoryInterface.new T s.field path = .ok mi →
      path.data.getLast? ≠ some '/' →
      (∀ ch ∈ (s.field.at_path path).children, ch.1 ≠ "" ∧ '/' ∉ ch.1.data) →
      0 ≤ c → c < mi.components →
      ∃ p leaf, (mi.raw_ptr c s).1 = .ok (p, leaf)) := by
  constructor
  · intro p leaf hraw
    have hraw' := raw_ptr_of_fst hraw
    rw [device_ptr_const_of_raw_ptr false hraw', host_ptr_const_of_raw_ptr false hraw']
    simp
  · intro path hnew hpath hn h0 h1
    have hmp : mi.m_path = path := (new_ok hnew).2.1
    subst hmp
    obtain ⟨p, leaf, hr⟩ := raw_ptr_total hnew hpath hn h0 h1
    exact ⟨p, leaf, by rw [hr]⟩

/-- Witness of C16: without accelerator support both members return the stored
pointer of the second scenario and change nothing; and component 1 of
"values" = {"x", "y"} has a stored pointer. -/
theorem no_accelerator_fallback_witness :
    ((scalar_interface.raw_ptr 0 scalar_state).1 = .ok (⟨0, 0⟩, "values") ∧
      scalar_interface.device_ptr_const false 0 scalar_state = (.ok ⟨0, 0⟩, scalar_state) ∧
      scalar_interface.host_ptr_const false 0 scalar_state = (.ok ⟨0, 0⟩, scalar_state)) ∧
    (MemoryInterface.new .float64 xy_state.field "values" = .ok xy_interface ∧
      ("values" : String).data.getLast? ≠ some '/' ∧
      (∀ ch ∈ (xy_state.field.at_path "values").children, ch.1 ≠ "" ∧ '/' ∉ ch.1.data) ∧
      (0 : Int) ≤ 1 ∧ (1 : Int) < xy_interface.components ∧
      ∃ p leaf, (xy_interface.raw_ptr 1 xy_state).1 = .ok (p, leaf)) := by
  have hn : ∀ ch ∈ (xy_state.field.at_path "values").children,
      ch.1 ≠ "" ∧ '/' ∉ ch.1.data := by
    have hc : (xy_state.field.at_path "values").children =
        [("x", .leaf ⟨.float64, 4, 0, 8⟩ ⟨0, 0⟩ .standard),
         ("y", .leaf ⟨.float64, 4, 0, 8⟩ ⟨1, 0⟩ .standard)] := rfl
    rw [hc]
    intro ch hmem
    simp only [List.mem_cons, List.mem_singleton, List.not_mem_nil, or_false] at hmem
    rcases hmem with rfl | rfl <;> exact ⟨by decide, by decide⟩
  exact ⟨⟨rfl,
      (no_accelerator_fallback .int32 scalar_interface 0 scalar_state).1 ⟨0, 0⟩ "values" rfl⟩,
    ⟨rfl, by decide, hn, by decide, by decide,
      (no_accelerator_fallback .float64 xy_interface 1 xy_state).2 "values" rfl (by decide) hn
        (by decide) (by decide)⟩⟩

/-- C17: for every node that does not have the requested path, construction fails
with the missing-path error, for every element type and whatever else the node
contains. -/
theorem new_missing_path (T : ElemType) (field : Node) (path : String)
    (h : field.has_path path = false) :
    MemoryInterface.new T field path = .error .missing_path := by
  unfold MemoryInterface.new
  simp [h]

/-- Witness of C17: a node that holds "coords" only has no "values". -/
theorem new_missing_path_witness :
    other_field.has_path "values" = false ∧
    MemoryInterface.new .float64 other_field "values" = .error .missing_path :=
  ⟨rfl, new_missing_path .float64 other_field "values" rfl⟩

/-- C19 (failing input): a host-resident field of three float64 elements, one every
16 bytes.  In an accelerator build `accessor("device", "")` creates a mirror of
three elements and returns a view over it with the offset 0 and the stride 2 of
the source: for `i = 2` the physical index is 4, not below the mirror's element
count 3, and the read leaves the mirror buffer, where the logical element 2 of
the source is 7. -/
theorem device_view_leaves_mirror :
    MemoryInterface.new .float64 strided_state.field "values" = .ok strided_interface ∧
    is_gpu_ptr strided_state.heap ⟨0, 0⟩ = false ∧
    strided_interface.size 0 = some 3 ∧
    (strided_interface.accessor true "device" "" strided_state).1 = .ok ⟨⟨1, 0⟩, 3, 0, 2⟩ ∧
    (strided_interface.accessor true "device" "" strided_state).2.heap =
      [⟨.host, [5, 0, 6, 0, 7]⟩, ⟨.device, [5, 0, 6]⟩] ∧
    ¬ (0 + 2 * 2 < 3) ∧
    MemoryAccessor.get (⟨⟨1, 0⟩, 3, 0, 2⟩ : MemoryAccessor .float64)
      (strided_interface.accessor true "device" "" strided_state).2.heap 2 = none ∧
    MemoryAccessor.get (MemoryAccessor.new .float64 ⟨0, 0⟩
      (strided_state.field.at_path "values").dtype) strided_state.heap 2 = some 7 :=
  ⟨rfl, rfl, rfl, rfl, rfl, by decide, rfl, rfl⟩

/-- C20: whenever `resolve_component(name)` succeeds on an interface built over the
node, its result `k` satisfies `0 <= k < components()`: `component_path(k)`
returns a path, `raw_ptr(k)` does not raise the invalid-component error and
`size(k)` is inside the recorded sizes; for a field with exactly one child
`components()` is 1 and `k` is 0. -/
theorem resolve_component_in_range (T : ElemType) (mi : MemoryInterface T) (s s' : State)
    (path name : String) (k : Int)
    (hnew : MemoryInterface.new T s.field path = .ok mi)
    (h : mi.resolve_component name s = (.ok k, s')) :
    0 ≤ k ∧ k < mi.components ∧
    (∃ leaf, mi.component_path k s = (.ok leaf, s)) ∧
    (mi.raw_ptr k s).1 ≠ .error .invalid_component ∧
    (∃ n, mi.size k = some n) ∧
    ((s.field.at_path path).number_of_children = 1 → mi.components = 1 ∧ k = 0) := by
  have hmp : mi.m_path = path := (new_ok hnew).2.1
  subst hmp
  obtain ⟨h0, h1⟩ := resolve_component_lt hnew h
  obtain ⟨leaf, hcp⟩ := component_path_valid hnew h0 h1
  refine ⟨h0, h1, ⟨leaf, hcp⟩, ?_, ?_, ?_⟩
  · unfold raw_ptr
    simp only [hcp]
    split
    · simp
    · simp
  · have hlen := new_sizes_length hnew
    have hlt : k.toNat < mi.m_sizes.length := by omega
    unfold size
    simp only [not_lt.mpr h0, if_false]
    exact ⟨_, List.get?_eq_get hlt⟩
  · intro hone
    have hmc := (new_ok hnew).2.2.1
    simp only [hone, or_true, if_true] at hmc
    refine ⟨hmc, ?_⟩
    rw [hmc] at h1
    omega

/-- Witness of C20: on the field with the single child "x" the name "x" resolves to
0, which is below `components() = 1`. -/
theorem resolve_component_in_range_witness :
    MemoryInterface.new .float64 one_child_state.field "values" = .ok one_child_interface ∧
    one_child_interface.resolve_component "x" one_child_state = (.ok 0, one_child_state) ∧
    (one_child_state.field.at_path "values").number_of_children = 1 ∧
    (0 : Int) ≤ 0 ∧ (0 : Int) < one_child_interface.components ∧
    (∃ leaf, one_child_interface.component_path 0 one_child_state =
      (.ok leaf, one_child_state)) ∧
    (one_child_interface.raw_ptr 0 one_child_state).1 ≠ .error .invalid_component ∧
    (∃ n, one_child_interface.size 0 = some n) ∧
    (one_child_interface.components = 1 ∧ (0 : Int) = 0) := by
  obtain ⟨h0, h1, h2, h3, h4, h5⟩ :=
    resolve_component_in_range .float64 one_child_interface one_child_state one_child_state
      "values" "x" 0 rfl rfl
  exact ⟨rfl, rfl, rfl, h0, h1, h2, h3, h4, h5 rfl⟩

end Ascent
